import Mathlib

/-!
Verification development for the `image-search-api` Cloudflare worker
(`src/worker.js`).  JavaScript strings are modelled as `List Char`
(UTF-16 code units; every string this program manipulates is ASCII, where
code units and code points coincide).  JavaScript numbers that the worker
uses as integers are modelled as `Int`.  The persisted R2 object is
modelled as an `Option RawSnapshot` (absent or parsed JSON), and fallible
upstream page fetches as a function returning an `ok` flag plus a body.
-/

/-- A JavaScript string, as a list of its characters. -/
abbrev Str := List Char

namespace ImageApi

/-! ## Character classes used by the worker's regexes -/

/-- The `0-9` range of the regex character classes. -/
def isAsciiDigit (c : Char) : Bool := 48 ≤ c.toNat && c.toNat ≤ 57

/-- The `a-z` range of the regex character classes. -/
def isAsciiLower (c : Char) : Bool := 97 ≤ c.toNat && c.toNat ≤ 122

/-- The `A-Z` range of the regex character classes. -/
def isAsciiUpper (c : Char) : Bool := 65 ≤ c.toNat && c.toNat ≤ 90

/-- `[A-Za-z0-9]`, the leading atom of the slug-capture regexes. -/
def isAsciiAlnum (c : Char) : Bool := isAsciiDigit c || isAsciiLower c || isAsciiUpper c

/-- A JS regex word character (`\w`), `[A-Za-z0-9_]`; used by the `\b` boundary. -/
def wordChar (c : Char) : Bool := isAsciiAlnum c || c = '_'

/-- The class `[A-Za-z0-9._+\-]` of the slug-capture regexes in
`extractSlugFromHref` / `extractSlugFromUrl` (worker.js:303, 310). -/
def slugClassChar (c : Char) : Bool :=
  isAsciiAlnum c || c = '.' || c = '_' || c = '+' || c = '-'

/-- The tail class `[a-z0-9._+\-]` of `SLUG_RE` (worker.js:14). -/
def lowerSlugChar (c : Char) : Bool :=
  isAsciiDigit c || isAsciiLower c || c = '.' || c = '_' || c = '+' || c = '-'

/-- `SLUG_RE = /^[a-z0-9][a-z0-9._+\-]*$/` (worker.js:14), as a whole-string test. -/
def slugRe : Str → Bool
  | [] => false
  | c :: t => (isAsciiDigit c || isAsciiLower c) && t.all lowerSlugChar

/-- `BAD_SLUGS` (worker.js:16). -/
def BAD_SLUGS : List Str :=
  ["fips".data, "free".data, "validated".data, "hardened".data, "stig".data,
   "latest".data, "changed".data, "last".data, "tag".data]

/-! ## JS string primitives -/

/-- `String.prototype.toLowerCase` restricted to ASCII: maps `A-Z` to `a-z`
and fixes every other character the worker can encounter. -/
def toLowerChar (c : Char) : Char :=
  if 65 ≤ c.toNat && c.toNat ≤ 90 then Char.ofNat (c.toNat + 32) else c

/-- `toLowerCase` on a whole string. -/
def toLowerStr (s : Str) : Str := s.map toLowerChar

/-- `hay.includes(needle)`: some contiguous run of `hay` equals `needle`.
`[].includes("")` is true, matching JS. -/
def jsIncludes : Str → Str → Bool
  | [], needle => needle.isEmpty
  | c :: t, needle => needle.isPrefixOf (c :: t) || jsIncludes t needle

/-- Whitespace stripped by `String.prototype.trim` (the ASCII part, which is
all that URL query strings deliver here). -/
def jsWhitespace (c : Char) : Bool := c = ' ' || c = '\t' || c = '\n' || c = '\r'

/-- `String.prototype.trim`. -/
def jsTrim (s : Str) : Str :=
  ((s.dropWhile jsWhitespace).reverse.dropWhile jsWhitespace).reverse

/-! ## Wildcard matching (`matchSlug`, worker.js:317-330) -/

/-- `matchSlug(slug, query)` — worker.js:317-330.  `query.startsWith("*")` is
`['*'].isPrefixOf query`, `query.endsWith("*")` is `['*'].isSuffixOf query`,
`slice(1, -1)` is `(drop 1) ∘ dropLast`, `slice(1)` is `drop 1`,
`slice(0, -1)` is `dropLast`. -/
def matchSlug (slug query : Str) : Bool :=
  if ['*'].isPrefixOf query && ['*'].isSuffixOf query then
    jsIncludes slug ((query.drop 1).dropLast)
  else if ['*'].isPrefixOf query then
    (query.drop 1).isSuffixOf slug
  else if ['*'].isSuffixOf query then
    query.dropLast.isPrefixOf slug
  else
    slug == query

/-! ## The sort comparator (`sortItems`, worker.js:333-335)

`sortItems` sorts with `a.name.localeCompare(b.name, "en", { sensitivity:
"base" })`.  ECMA-402 `localeCompare` delegates to the locale's collation
data; for `"en"` that is the CLDR root collation (ICU).  Restricted to the
characters that can occur in a slug (`[A-Za-z0-9._+-]`), the CLDR root
collation orders primary weights as

    `_`  <  `-`  <  `.`  <  `+`  <  `0`..`9`  <  `a`..`z`

(punctuation groups: connectors, then dashes, then terminators; symbols such
as `+` after all punctuation; digits after symbols; letters last), and
`sensitivity: "base"` makes `A-Z` collate equal to `a-z`.  `baseWeight`
records those primary weights; characters outside the slug alphabet are
given weights above 1000 in code-point order (they never occur in the
system's item names, and no theorem below relies on their relative order).
-/

/-- Primary CLDR-root collation weight of a slug-alphabet character, with
case folded (`sensitivity: "base"`). -/
def baseWeight (c : Char) : Nat :=
  if c = '_' then 0
  else if c = '-' then 1
  else if c = '.' then 2
  else if c = '+' then 3
  else if isAsciiDigit c then 4 + (c.toNat - 48)
  else if isAsciiLower c then 14 + (c.toNat - 97)
  else if isAsciiUpper c then 14 + (c.toNat - 65)
  else 1000 + c.toNat

/-- Sign of `a.localeCompare(b, "en", { sensitivity: "base" })`: lexicographic
comparison of the primary weight sequences. -/
def localeCompareBase : Str → Str → Int
  | [], [] => 0
  | [], _ :: _ => -1
  | _ :: _, [] => 1
  | x :: xs, y :: ys =>
    if baseWeight x < baseWeight y then -1
    else if baseWeight y < baseWeight x then 1
    else localeCompareBase xs ys

/-! ## Data model -/

/-- A catalog item `{ name, url }`. -/
structure Item where
  name : Str
  url : Str
deriving DecidableEq, Repr

/-- The boolean comparator fed to the sort: `comparator(a,b) <= 0`. -/
def itemLe (a b : Item) : Bool := localeCompareBase a.name b.name ≤ 0

/-- `itemLe` as a relation. -/
def itemRel (a b : Item) : Prop := itemLe a b = true

instance : DecidableRel itemRel := fun a b => instDecidableEqBool (itemLe a b) true

/-- `sortItems` (worker.js:333-335).  `Array.prototype.sort` is stable
(ES2019) and `localeCompare` with fixed arguments is a consistent
comparator (a total preorder), so the result is the unique stable sort by
`itemLe`; insertion sort is that stable sort. -/
def sortItems (items : List Item) : List Item := items.insertionSort itemRel

/-- The parsed persisted snapshot before the load-time repair pass
(`JSON.parse` output, worker.js:246): every field may be absent.  A `null`
entry in `items` behaves exactly like `{}` (both `it && it.url` and
`typeof it.name === "string"` reject it), so both are modelled as a
`RawItem` with both fields `none`.  The persisted `seen` object is never
read back (worker.js rebuilds it on every load), so it is not modelled. -/
structure RawItem where
  name : Option Str
  url : Option Str
deriving DecidableEq, Repr

/-- The persisted snapshot as parsed from R2 (fields possibly missing). -/
structure RawSnapshot where
  items : List RawItem
  cursor : Option Int
  lastPage : Option Int
  complete : Bool
  lastUpdated : Option Int
  cronTicks : Option Int
deriving DecidableEq, Repr

/-- The in-memory snapshot after `loadSnapshot`'s repair pass. `seen` is the
JS object used as a set of names, modelled as its key list in insertion
order. -/
structure Snapshot where
  items : List Item
  seen : List Str
  cursor : Int
  lastPage : Option Int
  complete : Bool
  lastUpdated : Int
  cronTicks : Int
deriving DecidableEq, Repr

/-- The persisted R2 object: `none` when `catalog.json` is absent. -/
abbrev Store := Option RawSnapshot

/-- JS `x || d` on an optionally-present number: `undefined`/`null` and `0`
are falsy. -/
def jsOrInt (o : Option Int) (d : Int) : Int :=
  match o with
  | some n => if n = 0 then d else n
  | none => d

/-- JS `x || d` on a present number (`0` is falsy). -/
def jsOrI (v d : Int) : Int := if v = 0 then d else v

/-- Truthiness of `snap.lastPage` (`null` and `0` are falsy). -/
def lpTruthy : Option Int → Bool
  | some n => n != 0
  | none => false

/-- The numeric value behind a truthy `lastPage`. -/
def lpVal : Option Int → Int
  | some n => n
  | none => 0

/-! ## URL building and percent-coding -/

/-- `ORIGIN` (worker.js:6). -/
def ORIGIN : Str := "https://images.chainguard.dev".data

/-- The literal `"/directory/image/"` that both slug-capture regexes anchor
on and that item URLs are built from. -/
def imageLit : Str := "/directory/image/".data

/-- Uppercase hex digit of a nibble (as emitted by `encodeURIComponent`). -/
def hexDigit (n : Nat) : Char := if n < 10 then Char.ofNat (48 + n) else Char.ofNat (55 + n)

/-- Characters `encodeURIComponent` leaves unescaped: `A-Za-z0-9` and
`- _ . ! ~ * ' ( )`. -/
def uriUnreserved (c : Char) : Bool :=
  isAsciiAlnum c || c = '-' || c = '_' || c = '.' || c = '!' || c = '~' ||
    c = '*' || c = Char.ofNat 39 || c = '(' || c = ')'

/-- `encodeURIComponent` on one character.  Item names are ASCII (they match
`SLUG_RE`), so the single-byte `%XX` case is the only escaping that can
occur; of the slug alphabet only `+` is escaped (to `%2B`). -/
def encodeChar (c : Char) : Str :=
  if uriUnreserved c then [c]
  else ['%', hexDigit (c.toNat / 16), hexDigit (c.toNat % 16)]

/-- `encodeURIComponent` (worker.js:257, 295). -/
def encodeURIComponentStr (s : Str) : Str := (s.map encodeChar).flatten

/-- Value of an ASCII hex digit, if it is one. -/
def hexVal (c : Char) : Option Nat :=
  if 48 ≤ c.toNat && c.toNat ≤ 57 then some (c.toNat - 48)
  else if 65 ≤ c.toNat && c.toNat ≤ 70 then some (c.toNat - 55)
  else if 97 ≤ c.toNat && c.toNat ≤ 102 then some (c.toNat - 87)
  else none

/-- `decodeURIComponent` (worker.js:305, 312), single-byte sequences.  The
regex captures it is applied to never contain `%` (the capture class
excludes it), so the `%XX` branch — and JS's `URIError` on a malformed or
multi-byte sequence — is unreachable in this program; outside `%` sequences
the function is the identity. -/
def percentDecode : Str → Str
  | [] => []
  | c :: t =>
    if c = '%' then
      match t with
      | h1 :: h2 :: t' =>
        match hexVal h1, hexVal h2 with
        | some a, some b => Char.ofNat (16 * a + b) :: percentDecode t'
        | _, _ => '%' :: percentDecode (h1 :: h2 :: t')
      | t0 => '%' :: percentDecode t0
    else c :: percentDecode t

/-- The canonical URL the worker stores for a slug:
`${ORIGIN}/directory/image/${encodeURIComponent(slug)}` (worker.js:257, 295). -/
def urlOf (slug : Str) : Str := ORIGIN ++ imageLit ++ encodeURIComponentStr slug

/-! ## The slug-capture regex

`/\/directory\/image\/([A-Za-z0-9][A-Za-z0-9._+\-]*)\b/` (worker.js:303 and
310, identical in both functions).  Its leftmost-match semantics unfold as
follows.  The engine scans for a start position where the literal
`/directory/image/` matches and is followed by an `[A-Za-z0-9]` character;
at such a position the star greedily takes the maximal run of class
characters, and `\b` then backtracks the star.  Every word character
(`[A-Za-z0-9_]`) is in the capture class, so the character after the
maximal run is never a word character; hence `\b` holds exactly at the end
of the longest prefix of the run that ends in a word character, and that
prefix is nonempty because the run starts with an alphanumeric.  So the
backtracking always succeeds, and the capture is the maximal class run
with its trailing `.`/`+`/`-` characters stripped. -/

/-- Strip the trailing non-word (`.`/`+`/`-`) characters of a class run:
the `\b` backtracking step described above. -/
def stripTrailNonWord (l : Str) : Str :=
  (l.reverse.dropWhile (fun c => !wordChar c)).reverse

/-- Capture of the regex at a position right after the literal, if the whole
regex matches there. -/
def captureAt : Str → Option Str
  | [] => none
  | a :: t =>
    if isAsciiAlnum a then some (stripTrailNonWord (a :: t.takeWhile slugClassChar))
    else none

/-- Leftmost-match scan for the slug-capture regex: at each position, try
the literal followed by a successful capture, else move one character
right (as the regex engine does after a failed match attempt). -/
def scanSlug : Str → Option Str
  | [] => none
  | c :: t =>
    if imageLit.isPrefixOf (c :: t) then
      match captureAt ((c :: t).drop imageLit.length) with
      | some cap => some cap
      | none => scanSlug t
    else scanSlug t

/-- The common body of `extractSlugFromHref` (worker.js:301-307) and
`extractSlugFromUrl` (worker.js:308-314), which are character-for-character
identical: run the regex, lowercase the decoded capture, and validate it
against `SLUG_RE` and `BAD_SLUGS`. -/
def extractImageSlug (s : Str) : Option Str :=
  match scanSlug s with
  | none => none
  | some cap =>
    let slug := toLowerStr (percentDecode cap)
    if slugRe slug && !(slug ∈ BAD_SLUGS : Bool) then some slug else none

/-- `extractSlugFromUrl` (worker.js:308-314); the argument is
`it && it.url`, absent for a missing/null field. -/
def extractSlugFromUrl (url : Option Str) : Option Str :=
  match url with
  | none => none
  | some u => extractImageSlug u

/-- `extractSlugFromHref` (worker.js:301-307), identical body. -/
def extractSlugFromHref (href : Str) : Option Str := extractImageSlug href

/-! ## Anchor-tag scan (`parseCards`, worker.js:287-299)

`/<a\b[^>]*\bhref="([^"]+)"[^>]*>/gi` run in an `exec` loop.  The
backtracking search below mirrors the engine: after `<a` plus a word
boundary, `[^>]*` is tried greedily (longest first) down to the shortest
prefix such that `\bhref="` follows (the `\b` needs a non-word character
before `h`, and the character before the `[^>]*` part is the word
character `a`, so the `[^>]*` part must be nonempty and end in a non-word
character); then `([^"]+)` is tried greedily down to the shortest nonempty
prefix followed by `"` and then `[^>]*>`.  The `i` flag only affects the
letters `a` and `href`, checked case-insensitively. -/

/-- Case-insensitive character comparison for the `i` regex flag. -/
def ciEq (c d : Char) : Bool := toLowerChar c == toLowerChar d

/-- Case-insensitive literal prefix test. -/
def ciPrefix : Str → Str → Bool
  | [], _ => true
  | _ :: _, [] => false
  | l :: ls, c :: cs => ciEq l c && ciPrefix ls cs

/-- After the capture's closing quote: `[^>]*>` — greedily skip non-`>`
characters and consume the `>`.  Returns what follows the `>`. -/
def afterCloseQuote (v : Str) : Option Str :=
  match v.dropWhile (fun c => c != '>') with
  | [] => none
  | _ :: rest => some rest

/-- Try the capture part at `v`: split `v = w ++ '"' :: z` with `w` nonempty
and quote-free, longest `w` first, such that `[^>]*>` succeeds after the
quote.  Returns the capture and the remainder after the match. -/
def tryCapture (v : Str) : Option (Str × Str) :=
  (List.range (v.takeWhile (fun c => c != '"')).length).reverse.findSome? fun i =>
    let w := v.take (i + 1)
    match v.drop (i + 1) with
    | '"' :: z =>
      match afterCloseQuote z with
      | some rest => some (w, rest)
      | none => none
    | _ => none

/-- Try `[^>]*\bhref="([^"]+)"[^>]*>` at `r` (the text right after `<a`):
choose the `[^>]*` prefix longest-first. -/
def tryAfterA (r : Str) : Option (Str × Str) :=
  (List.range ((r.takeWhile (fun c => c != '>')).length + 1)).reverse.findSome? fun i =>
    let u := r.take i
    match u.getLast? with
    | some b =>
      if wordChar b then none
      else if ciPrefix "href=\"".data (r.drop i) then tryCapture (r.drop (i + 6))
      else none
    | none => none

/-- One attempt of the whole anchor regex at the current position. -/
def tryAnchor : Str → Option (Str × Str)
  | c :: a :: t =>
    if c = '<' && ciEq a 'a' && !(t.head?.elim false wordChar) then tryAfterA t
    else none
  | _ => none

/-- The `exec` loop: leftmost matches, resuming after each match; on a
failed attempt the engine moves one character right.  Fuel is the string
length (each step consumes at least one character). -/
def anchorScanAux : Nat → Str → List Str
  | 0, _ => []
  | _ + 1, [] => []
  | fuel + 1, c :: t =>
    match tryAnchor (c :: t) with
    | some (cap, rest) => cap :: anchorScanAux fuel rest
    | none => anchorScanAux fuel t

/-- All `href` captures of the anchor regex over the document, in order. -/
def anchorScan (s : Str) : List Str := anchorScanAux s.length s

/-- `parseCards` (worker.js:287-299): map each captured `href` through
`extractSlugFromHref`, dropping failures and per-page duplicates, and build
the canonical item for each slug. -/
def parseCardsAux : List Str → List Str → List Item
  | [], _ => []
  | h :: rest, seen =>
    match extractSlugFromHref h with
    | none => parseCardsAux rest seen
    | some slug =>
      if slug ∈ seen then parseCardsAux rest seen
      else { name := slug, url := urlOf slug } :: parseCardsAux rest (slug :: seen)

/-- `parseCards(html)` (worker.js:287-299). -/
def parseCards (html : Str) : List Item := parseCardsAux (anchorScan html) []

/-! ## Snapshot store (`loadSnapshot` / `saveSnapshot`, worker.js:242-284) -/

/-- JS `a || b` on optionally-present strings (`null`, `undefined` and `""`
are falsy): `slugFromUrl || slugFromName` (worker.js:255). -/
def jsOrStr (a b : Option Str) : Option Str :=
  match a with
  | some s => if s = [] then b else some s
  | none => b

/-- The item-repair loop of `loadSnapshot` (worker.js:252-259): re-derive
each item's slug from its URL (preferred) or name (fallback), drop
candidates that are falsy, fail `SLUG_RE`, are denylisted, or repeat an
earlier candidate, and rebuild each surviving item canonically. -/
def repairItems : List RawItem → List Item → List Str → List Item × List Str
  | [], acc, seen => (acc, seen)
  | it :: rest, acc, seen =>
    let candidate := jsOrStr (extractSlugFromUrl it.url) (it.name.map toLowerStr)
    match candidate with
    | none => repairItems rest acc seen
    | some c =>
      if c = [] || !slugRe c || (c ∈ BAD_SLUGS : Bool) || (c ∈ seen : Bool) then
        repairItems rest acc seen
      else
        repairItems rest (acc ++ [{ name := c, url := urlOf c }]) (seen ++ [c])

/-- The repair pass `loadSnapshot` runs on every successfully parsed
snapshot (worker.js:248-267): repair the items, rebuild `seen`, default the
scalar fields (`epoch()` is passed in as `now`), and sort. -/
def repairPass (now : Int) (raw : RawSnapshot) : Snapshot :=
  { items := sortItems (repairItems raw.items [] []).1
    seen := (repairItems raw.items [] []).2
    cursor := jsOrInt raw.cursor 1
    lastPage := raw.lastPage
    complete := raw.complete
    lastUpdated := jsOrInt raw.lastUpdated now
    cronTicks := jsOrInt raw.cronTicks 0 }

/-- `freshSnapshot()` (worker.js:282-284). -/
def freshSnapshot (now : Int) : Snapshot :=
  { items := [], seen := [], cursor := 1, lastPage := none, complete := false,
    lastUpdated := now, cronTicks := 0 }

/-- What `JSON.stringify`/`JSON.parse` round-tripping of a saved snapshot
item yields. -/
def toRawItem (it : Item) : RawItem := { name := some it.name, url := some it.url }

/-- What `JSON.parse` of a saved snapshot yields: every scalar present. -/
def toRaw (s : Snapshot) : RawSnapshot :=
  { items := s.items.map toRawItem, cursor := some s.cursor, lastPage := s.lastPage,
    complete := s.complete, lastUpdated := some s.lastUpdated, cronTicks := some s.cronTicks }

/-- `saveSnapshot` (worker.js:276-280): overwrite the single persisted blob. -/
def saveSnapshot (snap : Snapshot) : Store := some (toRaw snap)

/-- `loadSnapshot` (worker.js:242-274): parse-and-repair the persisted blob,
or synthesize (and persist) a fresh snapshot when absent.  Returns the
loaded snapshot together with the store as it stands after the call. -/
def loadSnapshot (now : Int) (st : Store) : Snapshot × Store :=
  match st with
  | some raw => (repairPass now raw, some raw)
  | none => (freshSnapshot now, saveSnapshot (freshSnapshot now))

/-! ## Crawl engine (`crawlBatch`, worker.js:175-230) -/

/-- `MAX_PAGES_CAP` (worker.js:9). -/
def MAX_PAGES_CAP : Int := 5000

/-- `BATCH_PAGES_DEFAULT` (worker.js:10). -/
def BATCH_PAGES_DEFAULT : Int := 5

/-- An upstream page-fetch outcome as `crawlBatch` sees it through
`fetchWithEdgeCache` (the transport and its edge cache are external):
`res.ok` plus the body text. -/
structure FetchResponse where
  ok : Bool
  body : Str
deriving DecidableEq, Repr

/-- `fetchDirectoryPage` (worker.js:233-239): a non-success response is
returned as zero items, a success is parsed with `parseCards`. -/
def fetchDirectoryPage (tp : Int → FetchResponse) (n : Int) : List Item :=
  if (tp n).ok then parseCards (tp n).body else []

/-- The result object `crawlBatch` returns (worker.js:221-229 and 181). -/
structure BatchResult where
  ok : Bool
  crawledPages : Nat
  addedItems : Nat
  reachedEnd : Bool
  nextCursor : Int
  total : Nat
  lastPage : Option Int
deriving DecidableEq, Repr

/-- The mutable state of `crawlBatch`'s page loop. -/
structure LoopState where
  items : List Item
  seen : List Str
  page : Int
  crawled : Nat
  added : Nat
  complete : Bool
deriving DecidableEq, Repr

/-- The merge loop (worker.js:202-209): insert each extracted item by name
unless `seen` already has the key. -/
def mergeItems : List Item → List Item → List Str → Nat → List Item × List Str × Nat
  | [], items, seen, added => (items, seen, added)
  | it :: rest, items, seen, added =>
    if (it.name ∈ seen : Bool) then mergeItems rest items seen added
    else mergeItems rest (items ++ [it]) (seen ++ [it.name]) (added + 1)

/-- The page loop of `crawlBatch` (worker.js:188-212).  The fuel is the
remaining iteration budget `steps - crawledPages`; the `page <= hardStop`
half of the loop condition is checked on entry to each iteration.  An empty
page at or past a truthy `lastPage` sets `complete` and breaks; any other
empty page just advances; a non-empty page is merged and advances. -/
def crawlLoop (tp : Int → FetchResponse) (lastPage : Option Int) (hardStop : Int) :
    Nat → LoopState → LoopState
  | 0, s => s
  | fuel + 1, s =>
    if s.page > hardStop then s
    else
      let its := fetchDirectoryPage tp s.page
      if its.isEmpty then
        if lpTruthy lastPage && decide (lpVal lastPage ≤ s.page) then
          { s with crawled := s.crawled + 1, complete := true, page := s.page + 1 }
        else
          crawlLoop tp lastPage hardStop fuel
            { s with crawled := s.crawled + 1, page := s.page + 1 }
      else
        let m := mergeItems its s.items s.seen s.added
        crawlLoop tp lastPage hardStop fuel
          { s with
            crawled := s.crawled + 1
            items := m.1
            seen := m.2.1
            added := m.2.2
            page := s.page + 1 }

/-- `hardStop = Math.min(snap.lastPage || MAX_PAGES_CAP, MAX_PAGES_CAP)`
(worker.js:178). -/
def batchHardStop (snap : Snapshot) : Int :=
  min (jsOrInt snap.lastPage MAX_PAGES_CAP) MAX_PAGES_CAP

/-- The loop state at the top of `crawlBatch`'s loop (worker.js:184-186):
counters zero, `page = Math.max(1, snap.cursor || 1)`. -/
def batchInit (snap : Snapshot) : LoopState :=
  { items := snap.items, seen := snap.seen, page := max 1 (jsOrI snap.cursor 1),
    crawled := 0, added := 0, complete := false }

/-- The loop state after `crawlBatch`'s page loop has run. -/
def batchFinal (tp : Int → FetchResponse) (snap : Snapshot) (steps : Int) : LoopState :=
  crawlLoop tp snap.lastPage (batchHardStop snap) steps.toNat (batchInit snap)

/-- `crawlBatch(env, steps)` (worker.js:175-230).  Returns the result object
and the store after the call.  (`hardStop` is computed before the
`complete` early return in the source, but it is pure, so computing it in
the else branch — inside `batchFinal` — is the same.) -/
def crawlBatch (now : Int) (tp : Int → FetchResponse) (st : Store) (steps : Int) :
    BatchResult × Store :=
  let ld := loadSnapshot now st
  let snap := ld.1
  if snap.complete then
    ({ ok := true, crawledPages := 0, addedItems := 0, reachedEnd := true,
       nextCursor := snap.cursor, total := snap.items.length, lastPage := snap.lastPage },
     ld.2)
  else
    let s := batchFinal tp snap steps
    let complete' := s.complete || (lpTruthy snap.lastPage && decide (lpVal snap.lastPage < s.page))
    let snap' : Snapshot :=
      { items := sortItems s.items, seen := s.seen, cursor := s.page,
        lastPage := snap.lastPage, complete := complete', lastUpdated := now,
        cronTicks := snap.cronTicks }
    ({ ok := true, crawledPages := s.crawled, addedItems := s.added,
       reachedEnd := complete', nextCursor := s.page,
       total := (sortItems s.items).length, lastPage := snap.lastPage },
     saveSnapshot snap')

/-- A sequence of `crawlBatch` calls threading the store (the worker's state
across successive `/admin/build` requests or cron ticks). -/
def runBatches (now : Int) (tp : Int → FetchResponse) (st : Store) : List Int → Store
  | [] => st
  | steps :: rest => runBatches now tp (crawlBatch now tp st steps).2 rest

/-- The page index at which a `crawlBatch` on store `st` starts its loop
(`Math.max(1, snap.cursor || 1)`, worker.js:186). -/
def batchStartPage (now : Int) (st : Store) : Int :=
  max 1 (jsOrI (loadSnapshot now st).1.cursor 1)

/-! ## Scheduler (`scheduled`, worker.js:146-165) -/

/-- The tick bookkeeping of `scheduled` before the crawl batch
(worker.js:147-161): load, bump `cronTicks`, full-cycle reset at 1440,
persist. -/
def schedTick (now : Int) (st : Store) : Store :=
  let ld := loadSnapshot now st
  let snap := ld.1
  let t := snap.cronTicks + 1
  if t ≥ 1440 then
    saveSnapshot { snap with complete := false, cursor := 1, cronTicks := 0 }
  else
    saveSnapshot { snap with cronTicks := t }

/-- `scheduled(event, env, ctx)` (worker.js:146-165): tick bookkeeping, then
one crawl batch of `BATCH_PAGES_DEFAULT` pages. -/
def scheduled (now : Int) (tp : Int → FetchResponse) (st : Store) : Store :=
  (crawlBatch now tp (schedTick now st) BATCH_PAGES_DEFAULT).2

/-! ## Routes -/

/-- `clampInt` (worker.js:350-354) after query-string parsing: the
`Number.parseInt` step is abstracted as an `Option Int` (missing or
unparsable parameter gives the fallback). -/
def clampInt (o : Option Int) (mn mx dflt : Int) : Int :=
  match o with
  | some n => min (max n mn) mx
  | none => dflt

/-- ECMAScript `Array.prototype.slice(a, b)` with integer arguments. -/
def jsSlice (l : List Item) (a b : Int) : List Item :=
  let n : Int := l.length
  let s := if a < 0 then max (n + a) 0 else min a n
  let e := if b < 0 then max (n + b) 0 else min b n
  (l.take e.toNat).drop s.toNat

/-- The pagination step shared by `/v1/images` and `/v1/search`
(worker.js:63-64, 76-77): `start = (page-1)*size`, `slice(start, start+size)`. -/
def paginate (l : List Item) (page size : Int) : List Item :=
  jsSlice l ((page - 1) * size) ((page - 1) * size + size)

/-- The `/v1/images` route (worker.js:58-66) on a loaded snapshot. -/
def listImages (snap : Snapshot) (pageQ sizeQ : Option Int) : List Item :=
  let page := clampInt pageQ 1 1000000000 1
  let size := clampInt sizeQ 1 1000 200
  paginate (sortItems snap.items) page size

/-- The `/v1/search` route (worker.js:68-79) on a loaded snapshot: lowercase
and trim the query, return nothing for a falsy query, else filter by
`matchSlug` over lowercased names, sort, paginate. -/
def searchImages (snap : Snapshot) (qRaw : Str) (pageQ sizeQ : Option Int) : List Item :=
  let q := jsTrim (toLowerStr qRaw)
  if q = [] then []
  else
    let page := clampInt pageQ 1 1000000000 1
    let size := clampInt sizeQ 1 200 50
    let hits := snap.items.filter (fun i => matchSlug (toLowerStr i.name) q)
    paginate (sortItems hits) page size

/-- The error payload the worker's top-level `catch` produces
(worker.js:140-142): HTTP status and the thrown error's message. -/
structure ErrorResponse where
  status : Int
  message : Str
deriving DecidableEq, Repr

/-- The `/admin/repair` route (worker.js:112-120) for an authorized POST.
Line 116 calls `repairSnapshot(snap)`, but no function named
`repairSnapshot` is defined anywhere in worker.js; evaluating the call
therefore throws `ReferenceError: repairSnapshot is not defined`, which the
route's enclosing `try`/`catch` (worker.js:140-142) converts into a 500
JSON error.  Execution never reaches the `sortItems`/`saveSnapshot` on
lines 117-118, so the only store effect is `loadSnapshot`'s
persist-if-absent. -/
def adminRepair (now : Int) (st : Store) : ErrorResponse × Store :=
  let ld := loadSnapshot now st
  ({ status := 500, message := "repairSnapshot is not defined".data }, ld.2)

/-! ## Verification-side definitions and witness data -/

/-- The cursor a `crawlBatch` on store `st` would load (the persisted cursor
after the `|| 1` default of worker.js:263). -/
def storeCursor (st : Store) : Int :=
  match st with
  | some raw => jsOrInt raw.cursor 1
  | none => 1

/-- The invariant tying the `seen` index to the item names: `seen` holds
exactly the names, and the names are pairwise distinct. -/
def SeenInv (items : List Item) (seen : List Str) : Prop :=
  (∀ n, n ∈ seen ↔ n ∈ items.map Item.name) ∧ (items.map Item.name).Nodup

/-- Slug characters other than `_` and `+`: on these the locale comparator
agrees with code-point order. -/
def restrictedChar (c : Char) : Bool :=
  isAsciiDigit c || isAsciiLower c || c = '.' || c = '-'

/-- Numeric form of `baseWeight` on the restricted alphabet. -/
def wOf (n : Nat) : Nat :=
  if n = 45 then 1 else if n = 46 then 2
  else if 48 ≤ n ∧ n ≤ 57 then 4 + (n - 48) else 14 + (n - 97)

/-- Whether a string ends in a regex word character (`[A-Za-z0-9_]`). -/
def endsInWord (s : Str) : Bool :=
  match s.getLast? with
  | some c => wordChar c
  | none => false

/-- Witness transport: page 1 lists `nginx`, all other fetches fail. -/
def tpNginx : Int → FetchResponse := fun p =>
  if p = 1 then { ok := true, body := "<a href=\"/directory/image/nginx\">x</a>".data }
  else { ok := false, body := [] }

/-- Witness snapshot for the scheduler tick, parameterised by `cronTicks`. -/
def rawTick (t : Int) : RawSnapshot :=
  { items := [], cursor := some 7, lastPage := some 9, complete := true,
    lastUpdated := some 5, cronTicks := some t }

/-- Witness snapshot with items whose names a second repair renames. -/
def rawPlus : RawSnapshot :=
  { items := [{ name := some "foo.".data, url := none },
              { name := some "libstdc++".data, url := none }],
    cursor := some 1, lastPage := none, complete := false,
    lastUpdated := some 5, cronTicks := some 0 }

/-- A transport on which every page fetch fails. -/
def tpNone : Int → FetchResponse := fun _ => { ok := false, body := [] }

/-- A persisted snapshot whose crawl has finished. -/
def rawDone : RawSnapshot :=
  { items := [{ name := some "nginx".data, url := some (urlOf "nginx".data) }],
    cursor := some 4, lastPage := some 3, complete := true,
    lastUpdated := some 9, cronTicks := some 2 }

/-- A persisted snapshot that already contains `nginx`, mid-crawl. -/
def rawDup : RawSnapshot :=
  { items := [{ name := some "nginx".data, url := some (urlOf "nginx".data) }],
    cursor := some 1, lastPage := some 1, complete := false,
    lastUpdated := some 5, cronTicks := some 0 }

/-- The spec's wildcard example catalog `{"node", "nodejs", "gonode"}`. -/
def demoSnap : Snapshot :=
  { items := [{ name := "node".data, url := urlOf "node".data },
              { name := "nodejs".data, url := urlOf "nodejs".data },
              { name := "gonode".data, url := urlOf "gonode".data }],
    seen := ["node".data, "nodejs".data, "gonode".data],
    cursor := 1, lastPage := none, complete := false, lastUpdated := 0, cronTicks := 0 }

/-- Case-insensitive lexicographic order on strings (by code point of the
lowercased characters), as the spec's words "case-insensitive lexicographic
order by name" describe it.  This is the specification-side order that the
source comparator `localeCompareBase` is compared against. -/
def ciLexLe : Str → Str → Bool
  | [], _ => true
  | _ :: _, [] => false
  | x :: xs, y :: ys =>
    if (toLowerChar x).toNat < (toLowerChar y).toNat then true
    else if (toLowerChar y).toNat < (toLowerChar x).toNat then false
    else ciLexLe xs ys

/-! ## Comparator lemmas -/

theorem localeCompareBase_swap (a b : Str) : localeCompareBase b a = -localeCompareBase a b := by
  induction a generalizing b with
  | nil => cases b <;> simp [localeCompareBase]
  | cons x xs ih =>
    cases b with
    | nil => simp [localeCompareBase]
    | cons y ys =>
      simp only [localeCompareBase]
      rcases Nat.lt_trichotomy (baseWeight x) (baseWeight y) with h | h | h
      · rw [if_neg (Nat.not_lt.mpr (Nat.le_of_lt h)), if_pos h, if_pos h]
        norm_num
      · rw [h, if_neg (Nat.lt_irrefl _), if_neg (Nat.lt_irrefl _), if_neg (Nat.lt_irrefl _),
          if_neg (Nat.lt_irrefl _)]
        exact ih ys
      · rw [if_pos h, if_neg (Nat.not_lt.mpr (Nat.le_of_lt h)), if_pos h]

theorem localeCompareBase_trans {a b c : Str} (hab : localeCompareBase a b ≤ 0)
    (hbc : localeCompareBase b c ≤ 0) : localeCompareBase a c ≤ 0 := by
  induction a generalizing b c with
  | nil => cases c <;> simp [localeCompareBase]
  | cons x xs ih =>
    cases b with
    | nil => simp [localeCompareBase] at hab
    | cons y ys =>
      cases c with
      | nil => simp [localeCompareBase] at hbc
      | cons z zs =>
        simp only [localeCompareBase] at hab hbc ⊢
        rcases Nat.lt_trichotomy (baseWeight x) (baseWeight y) with h1 | h1 | h1
        · rcases Nat.lt_trichotomy (baseWeight y) (baseWeight z) with h2 | h2 | h2
          · rw [if_pos (Nat.lt_trans h1 h2)]; norm_num
          · rw [if_pos (h2 ▸ h1)]; norm_num
          · rw [if_neg (Nat.not_lt.mpr (Nat.le_of_lt h2)), if_pos h2] at hbc
            omega
        · rcases Nat.lt_trichotomy (baseWeight y) (baseWeight z) with h2 | h2 | h2
          · rw [if_pos (h1 ▸ h2)]; norm_num
          · rw [h1, h2, if_neg (Nat.lt_irrefl _), if_neg (Nat.lt_irrefl _)]
            rw [h1, if_neg (Nat.lt_irrefl _), if_neg (Nat.lt_irrefl _)] at hab
            rw [h2, if_neg (Nat.lt_irrefl _), if_neg (Nat.lt_irrefl _)] at hbc
            exact ih hab hbc
          · rw [if_neg (Nat.not_lt.mpr (Nat.le_of_lt h2)), if_pos h2] at hbc
            omega
        · rw [if_neg (Nat.not_lt.mpr (Nat.le_of_lt h1)), if_pos h1] at hab
          omega

theorem localeCompareBase_eq_zero_iff {a b : Str} :
    localeCompareBase a b = 0 ↔ a.map baseWeight = b.map baseWeight := by
  induction a generalizing b with
  | nil => cases b <;> simp [localeCompareBase]
  | cons x xs ih =>
    cases b with
    | nil => simp [localeCompareBase]
    | cons y ys =>
      simp only [localeCompareBase, List.map_cons, List.cons_eq_cons]
      rcases Nat.lt_trichotomy (baseWeight x) (baseWeight y) with h | h | h
      · rw [if_pos h]
        constructor
        · intro h'; omega
        · rintro ⟨h', _⟩; omega
      · rw [h, if_neg (Nat.lt_irrefl _), if_neg (Nat.lt_irrefl _)]
        rw [ih]
        simp [h]
      · rw [if_neg (Nat.not_lt.mpr (Nat.le_of_lt h)), if_pos h]
        constructor
        · intro h'; omega
        · rintro ⟨h', _⟩; omega

theorem itemLe_trans : ∀ a b c : Item, itemLe a b = true → itemLe b c = true → itemLe a c = true := by
  intro a b c hab hbc
  simp only [itemLe, decide_eq_true_eq] at hab hbc ⊢
  exact localeCompareBase_trans hab hbc

theorem itemLe_total : ∀ a b : Item, (itemLe a b || itemLe b a) = true := by
  intro a b
  simp only [itemLe, Bool.or_eq_true, decide_eq_true_eq]
  rw [localeCompareBase_swap a.name b.name]
  omega

/-! ## `sortItems` lemmas -/

theorem sortItems_perm (l : List Item) : (sortItems l).Perm l := List.perm_insertionSort itemRel l

theorem sortItems_sorted (l : List Item) :
    (sortItems l).Pairwise (fun a b => itemLe a b = true) := by
  letI : IsTrans Item itemRel := ⟨fun a b c => itemLe_trans a b c⟩
  letI : IsTotal Item itemRel := by
    refine ⟨fun a b => ?_⟩
    rcases Bool.or_eq_true_iff.mp (itemLe_total a b) with h' | h'
    · exact Or.inl h'
    · exact Or.inr h'
  exact List.sorted_insertionSort itemRel l

theorem sortItems_of_sorted {l : List Item}
    (h : l.Pairwise (fun a b => itemLe a b = true)) : sortItems l = l :=
  List.Sorted.insertionSort_eq h

theorem sortItems_idem (l : List Item) : sortItems (sortItems l) = sortItems l :=
  sortItems_of_sorted (sortItems_sorted l)

/-- Two sorted lists that are permutations of each other and have no two
base-collation-equal names are equal (ties are impossible, so the stable
sort has a unique outcome). -/
theorem sorted_perm_eq : ∀ {xs ys : List Item},
    xs.Pairwise (fun a b => itemLe a b = true) →
    ys.Pairwise (fun a b => itemLe a b = true) →
    xs.Perm ys → (xs.map fun it => it.name.map baseWeight).Nodup → xs = ys := by
  intro xs
  induction xs with
  | nil => intro ys _ _ hp _; exact (hp.nil_eq).symm ▸ rfl
  | cons x xs' ih =>
    intro ys hxs hys hp hnd
    cases ys with
    | nil => exact absurd hp.symm (by simp)
    | cons y ys' =>
      have hxy : x = y := by
        by_contra hne
        have hxmem : x ∈ y :: ys' := hp.mem_iff.mp (List.mem_cons_self x xs')
        have hymem : y ∈ x :: xs' := hp.mem_iff.mpr (List.mem_cons_self y ys')
        have hx' : x ∈ ys' := by
          rcases List.mem_cons.mp hxmem with h | h
          · exact absurd h hne
          · exact h
        have hy' : y ∈ xs' := by
          rcases List.mem_cons.mp hymem with h | h
          · exact absurd h.symm hne
          · exact h
        have h1 : itemLe x y = true := (List.pairwise_cons.mp hxs).1 y hy'
        have h2 : itemLe y x = true := (List.pairwise_cons.mp hys).1 x hx'
        have hz : localeCompareBase x.name y.name = 0 := by
          simp only [itemLe, decide_eq_true_eq] at h1 h2
          rw [localeCompareBase_swap x.name y.name] at h2
          omega
        have hw : x.name.map baseWeight = y.name.map baseWeight :=
          localeCompareBase_eq_zero_iff.mp hz
        have hmem2 : (fun it => it.name.map baseWeight) x ∈
            xs'.map (fun it => it.name.map baseWeight) := by
          rw [show (fun it => it.name.map baseWeight) x = y.name.map baseWeight from hw]
          exact List.mem_map.mpr ⟨y, hy', rfl⟩
        exact (List.nodup_cons.mp hnd).1 hmem2
      subst hxy
      have hp' : xs'.Perm ys' := hp.cons_inv
      have := ih (List.pairwise_cons.mp hxs).2 (List.pairwise_cons.mp hys).2 hp'
        (List.nodup_cons.mp hnd).2
      rw [this]

/-! ## Small facts about the JS primitives -/

theorem jsIncludes_nil (s : Str) : jsIncludes s [] = true := by
  induction s with
  | nil => rfl
  | cons c t ih => simp [jsIncludes, ih, List.isPrefixOf]

theorem starPrefix_cons (c : Char) (t : Str) : ['*'].isPrefixOf (c :: t) = ('*' == c) := by
  simp [List.isPrefixOf]

theorem starPrefix_false {t : Str} (h : '*' ∉ t) : ['*'].isPrefixOf t = false := by
  cases t with
  | nil => rfl
  | cons c t' =>
    rw [starPrefix_cons]
    exact beq_eq_false_iff_ne.mpr fun he => h (he ▸ List.mem_cons_self c t')

theorem starPrefix_append_false {l : Str} (h1 : l ≠ []) (h2 : '*' ∉ l) (xs : Str) :
    ['*'].isPrefixOf (l ++ xs) = false := by
  cases l with
  | nil => exact absurd rfl h1
  | cons c t' =>
    rw [List.cons_append, starPrefix_cons]
    exact beq_eq_false_iff_ne.mpr fun he => h2 (he ▸ List.mem_cons_self c t')

theorem starSuffix_false {t : Str} (h : '*' ∉ t) : ['*'].isSuffixOf t = false := by
  have h' : '*' ∉ t.reverse := fun hm => h (List.mem_reverse.mp hm)
  simpa [List.isSuffixOf] using starPrefix_false h'

theorem jsOrInt_some_of_ne {n : Int} (d : Int) (h : n ≠ 0) : jsOrInt (some n) d = n := by
  simp [jsOrInt, h]

theorem jsOrInt_some_zero (c : Int) : jsOrInt (some c) 0 = c := by
  by_cases h : c = 0 <;> simp [jsOrInt, h]

theorem jsOrInt_ne_zero (o : Option Int) {d : Int} (h : d ≠ 0) : jsOrInt o d ≠ 0 := by
  cases o with
  | none => simpa [jsOrInt]
  | some n => by_cases hn : n = 0 <;> simp [jsOrInt, hn, h]

/-! ## Demo data for witnesses -/

/-! ## Claim C3 -/

/-- C3: an authorized `POST /admin/repair` never applies and re-persists the
repair pass — `worker.js:116` calls the undefined `repairSnapshot`, so the
route always answers with the 500 `ReferenceError` payload and leaves the
persisted snapshot exactly as it was. -/
theorem claim3_admin_repair_errors : ∀ (now : Int) (raw : RawSnapshot),
    adminRepair now (some raw) =
      ({ status := 500, message := "repairSnapshot is not defined".data }, some raw) := by
  intro now raw
  rfl

/-! ## Claim C10 -/

/-- C10: the query `"*"` matches every slug (`matchSlug` reduces it to a
contains-empty-string test), and `GET /v1/search?q=*` therefore returns the
whole sorted item list, paginated with the search route's clamps, rather
than rejecting the query or matching a literal asterisk. -/
theorem claim10_star_matches_all :
    (∀ slug : Str, matchSlug slug ['*'] = true) ∧
    (∀ (snap : Snapshot) (pageQ sizeQ : Option Int),
      searchImages snap ['*'] pageQ sizeQ =
        paginate (sortItems snap.items) (clampInt pageQ 1 1000000000 1)
          (clampInt sizeQ 1 200 50)) := by
  have hstar : ∀ slug : Str, matchSlug slug ['*'] = true := by
    intro slug
    rw [show matchSlug slug ['*'] = jsIncludes slug [] from rfl]
    exact jsIncludes_nil slug
  refine ⟨hstar, ?_⟩
  intro snap pageQ sizeQ
  have hf : snap.items.filter (fun i => matchSlug (toLowerStr i.name) ['*']) = snap.items :=
    List.filter_eq_self.mpr fun a _ => hstar (toLowerStr a.name)
  show paginate (sortItems (snap.items.filter fun i => matchSlug (toLowerStr i.name) ['*']))
      (clampInt pageQ 1 1000000000 1) (clampInt sizeQ 1 200 50) = _
  rw [hf]

/-! ## Claim C7 -/

/-- C7: `matchSlug` implements the four wildcard forms — bare term: exact
equality; `term*`: prefix; `*term`: suffix; `*term*`: contains — and on the
catalog `{"node", "nodejs", "gonode"}` the search route returns exactly the
sets the spec lists for `node`, `node*`, `*node`, `*node*`. -/
theorem claim7_wildcard_semantics :
    (∀ t slug : Str, t ≠ [] → '*' ∉ t →
      matchSlug slug t = (slug == t) ∧
      matchSlug slug (t ++ ['*']) = t.isPrefixOf slug ∧
      matchSlug slug ('*' :: t) = t.isSuffixOf slug ∧
      matchSlug slug ('*' :: (t ++ ['*'])) = jsIncludes slug t) ∧
    ((searchImages demoSnap "node".data none none).map Item.name = ["node".data] ∧
     (searchImages demoSnap "node*".data none none).map Item.name =
       ["node".data, "nodejs".data] ∧
     (searchImages demoSnap "*node".data none none).map Item.name =
       ["gonode".data, "node".data] ∧
     (searchImages demoSnap "*node*".data none none).map Item.name =
       ["gonode".data, "node".data, "nodejs".data]) := by
  constructor
  · intro t slug h1 h2
    have hrev1 : t.reverse ≠ [] := by simpa using h1
    have hrev2 : '*' ∉ t.reverse := fun hm => h2 (List.mem_reverse.mp hm)
    refine ⟨?_, ?_, ?_, ?_⟩
    · simp [matchSlug, starPrefix_false h2, starSuffix_false h2]
    · have hp : ['*'].isPrefixOf (t ++ ['*']) = false := starPrefix_append_false h1 h2 ['*']
      have hs : ['*'].isSuffixOf (t ++ ['*']) = true := by
        simp [List.isSuffixOf, starPrefix_cons]
      simp [matchSlug, hp, hs]
    · have hp : ['*'].isPrefixOf ('*' :: t) = true := by simp [starPrefix_cons]
      have hs : ['*'].isSuffixOf ('*' :: t) = false := by
        simp only [List.isSuffixOf, List.reverse_cons, List.reverse_nil, List.nil_append]
        exact starPrefix_append_false hrev1 hrev2 ['*']
      simp [matchSlug, hp, hs]
    · have hp : ['*'].isPrefixOf ('*' :: (t ++ ['*'])) = true := by simp [starPrefix_cons]
      have hs : ['*'].isSuffixOf ('*' :: (t ++ ['*'])) = true := by
        simp [List.isSuffixOf, List.isPrefixOf]
      simp [matchSlug, hp, hs]
  · refine ⟨?_, ?_, ?_, ?_⟩ <;> decide

/-- Witness for C7 at concrete inputs. -/
theorem claim7_witness :
    ("node".data ≠ ([] : Str)) ∧ ('*' ∉ "node".data) ∧
    matchSlug "nodejs".data ("node".data ++ ['*']) = "node".data.isPrefixOf "nodejs".data :=
  ⟨by decide, by decide,
   ((claim7_wildcard_semantics.1 "node".data "nodejs".data (by decide) (by decide)).2.1)⟩

/-- Unfolding of `crawlBatch` on a completed snapshot (the early return of
worker.js:180-182). -/
theorem crawlBatch_complete_eq (now : Int) (tp : Int → FetchResponse) (raw : RawSnapshot)
    (k : Int) (h : raw.complete = true) :
    crawlBatch now tp (some raw) k =
      ({ ok := true, crawledPages := 0, addedItems := 0, reachedEnd := true,
         nextCursor := (repairPass now raw).cursor,
         total := (repairPass now raw).items.length,
         lastPage := raw.lastPage }, some raw) := by
  have hc : (repairPass now raw).complete = true := h
  show (if (repairPass now raw).complete then _ else _) = _
  rw [if_pos hc]
  rfl

/-! ## Claim C1 -/

/-- C1: once a snapshot is complete, any `crawlBatch` call is a pure no-op:
zero pages crawled, zero items added, `reachedEnd = true`, the cursor
reported unchanged, and the persisted snapshot untouched; iterating batches
keeps the store unchanged until some other operation resets `complete`. -/
theorem claim1_completed_batch_noop :
    ∀ (now : Int) (tp : Int → FetchResponse) (raw : RawSnapshot) (steps : Int),
    raw.complete = true →
    crawlBatch now tp (some raw) steps =
      ({ ok := true, crawledPages := 0, addedItems := 0, reachedEnd := true,
         nextCursor := (repairPass now raw).cursor,
         total := (repairPass now raw).items.length,
         lastPage := raw.lastPage }, some raw) ∧
    (∀ stepss : List Int, runBatches now tp (some raw) stepss = some raw) := by
  intro now tp raw steps h
  have hmain : ∀ k : Int, crawlBatch now tp (some raw) k =
      ({ ok := true, crawledPages := 0, addedItems := 0, reachedEnd := true,
         nextCursor := (repairPass now raw).cursor,
         total := (repairPass now raw).items.length,
         lastPage := raw.lastPage }, some raw) := fun k =>
    crawlBatch_complete_eq now tp raw k h
  refine ⟨hmain steps, ?_⟩
  intro stepss
  induction stepss with
  | nil => rfl
  | cons k rest ih =>
    show runBatches now tp (crawlBatch now tp (some raw) k).2 rest = some raw
    rw [hmain k]
    exact ih

/-- Witness for C1 at a concrete completed snapshot. -/
theorem claim1_witness :
    rawDone.complete = true ∧
    crawlBatch 5 tpNone (some rawDone) 3 =
      ({ ok := true, crawledPages := 0, addedItems := 0, reachedEnd := true,
         nextCursor := (repairPass 5 rawDone).cursor,
         total := (repairPass 5 rawDone).items.length,
         lastPage := rawDone.lastPage }, some rawDone) :=
  ⟨rfl, (claim1_completed_batch_noop 5 tpNone rawDone 3 rfl).1⟩

/-! ## Crawl-loop lemmas -/

/-- `crawlBatch` observes the transport only through `fetchDirectoryPage`. -/
theorem crawlLoop_congr {tp tp' : Int → FetchResponse}
    (h : ∀ q, fetchDirectoryPage tp q = fetchDirectoryPage tp' q)
    (lastPage : Option Int) (hardStop : Int) :
    ∀ (fuel : Nat) (s : LoopState),
    crawlLoop tp lastPage hardStop fuel s = crawlLoop tp' lastPage hardStop fuel s := by
  intro fuel
  induction fuel with
  | zero => intro s; rfl
  | succ n ih =>
    intro s
    simp only [crawlLoop, h s.page]
    by_cases h1 : s.page > hardStop
    · rw [if_pos h1, if_pos h1]
    · rw [if_neg h1, if_neg h1]
      by_cases h2 : (fetchDirectoryPage tp' s.page).isEmpty = true
      · rw [if_pos h2, if_pos h2]
        by_cases h3 : (lpTruthy lastPage && decide (lpVal lastPage ≤ s.page)) = true
        · rw [if_pos h3, if_pos h3]
        · rw [if_neg h3, if_neg h3]
          exact ih _
      · rw [if_neg h2, if_neg h2]
        exact ih _

theorem batchFinal_congr {tp tp' : Int → FetchResponse}
    (h : ∀ q, fetchDirectoryPage tp q = fetchDirectoryPage tp' q)
    (snap : Snapshot) (steps : Int) : batchFinal tp snap steps = batchFinal tp' snap steps :=
  crawlLoop_congr h _ _ _ _

theorem crawlBatch_congr {tp tp' : Int → FetchResponse}
    (h : ∀ q, fetchDirectoryPage tp q = fetchDirectoryPage tp' q)
    (now : Int) (st : Store) (steps : Int) :
    crawlBatch now tp st steps = crawlBatch now tp' st steps := by
  simp only [crawlBatch, batchFinal_congr h]

/-- The loop only ever increments the page index. -/
theorem crawlLoop_page_mono (tp : Int → FetchResponse) (lastPage : Option Int) (hardStop : Int) :
    ∀ (fuel : Nat) (s : LoopState), s.page ≤ (crawlLoop tp lastPage hardStop fuel s).page := by
  intro fuel
  induction fuel with
  | zero => intro s; exact le_refl _
  | succ n ih =>
    intro s
    simp only [crawlLoop]
    by_cases h1 : s.page > hardStop
    · rw [if_pos h1]
    · rw [if_neg h1]
      by_cases h2 : (fetchDirectoryPage tp s.page).isEmpty = true
      · rw [if_pos h2]
        by_cases h3 : (lpTruthy lastPage && decide (lpVal lastPage ≤ s.page)) = true
        · rw [if_pos h3]; simp
        · rw [if_neg h3]
          calc s.page ≤ s.page + 1 := by omega
            _ ≤ _ := ih _
      · rw [if_neg h2]
        calc s.page ≤ s.page + 1 := by omega
          _ ≤ _ := ih _

/-- Unfolding of `crawlBatch` on a not-yet-complete snapshot. -/
theorem crawlBatch_not_complete (now : Int) (tp : Int → FetchResponse) (raw : RawSnapshot)
    (k : Int) (h : raw.complete = false) :
    crawlBatch now tp (some raw) k =
      ({ ok := true
         crawledPages := (batchFinal tp (repairPass now raw) k).crawled
         addedItems := (batchFinal tp (repairPass now raw) k).added
         reachedEnd := (batchFinal tp (repairPass now raw) k).complete ||
           (lpTruthy (repairPass now raw).lastPage &&
             decide (lpVal (repairPass now raw).lastPage <
               (batchFinal tp (repairPass now raw) k).page))
         nextCursor := (batchFinal tp (repairPass now raw) k).page
         total := (sortItems (batchFinal tp (repairPass now raw) k).items).length
         lastPage := (repairPass now raw).lastPage },
       saveSnapshot
         { items := sortItems (batchFinal tp (repairPass now raw) k).items
           seen := (batchFinal tp (repairPass now raw) k).seen
           cursor := (batchFinal tp (repairPass now raw) k).page
           lastPage := (repairPass now raw).lastPage
           complete := (batchFinal tp (repairPass now raw) k).complete ||
             (lpTruthy (repairPass now raw).lastPage &&
               decide (lpVal (repairPass now raw).lastPage <
                 (batchFinal tp (repairPass now raw) k).page))
           lastUpdated := now
           cronTicks := (repairPass now raw).cronTicks }) := by
  have hc : ¬((repairPass now raw).complete = true) := by
    rw [show (repairPass now raw).complete = raw.complete from rfl, h]
    simp
  show (if (repairPass now raw).complete then _ else _) = _
  rw [if_neg hc]
  rfl

/-! ## Claim C9 -/

/-- C9: a failed/non-success page fetch is delivered to the engine as zero
items; the engine cannot distinguish that page from a successfully fetched
empty page (replacing the failure by an empty success leaves every
`crawlBatch` unchanged); and away from a known `lastPage` boundary the loop
just advances the page index by one — exactly as for any fetched page — and
continues with the remaining budget instead of aborting. -/
theorem claim9_fetch_failure_empty :
    ∀ (tp : Int → FetchResponse) (p : Int), (tp p).ok = false →
    fetchDirectoryPage tp p = [] ∧
    (∀ (now : Int) (st : Store) (steps : Int),
      crawlBatch now (fun q => if q = p then { ok := true, body := [] } else tp q) st steps =
        crawlBatch now tp st steps) ∧
    (∀ (lastPage : Option Int) (hardStop : Int) (fuel : Nat) (s : LoopState),
      s.page = p → ¬(lpTruthy lastPage = true ∧ lpVal lastPage ≤ s.page) →
      ¬(s.page > hardStop) →
      crawlLoop tp lastPage hardStop (fuel + 1) s =
        crawlLoop tp lastPage hardStop fuel
          { s with crawled := s.crawled + 1, page := s.page + 1 }) := by
  intro tp p hfail
  have hempty : fetchDirectoryPage tp p = [] := by
    simp [fetchDirectoryPage, hfail]
  refine ⟨hempty, ?_, ?_⟩
  · intro now st steps
    refine crawlBatch_congr (fun q => ?_) now st steps
    by_cases hq : q = p
    · subst hq
      rw [hempty]
      simp [fetchDirectoryPage]
      rfl
    · simp [fetchDirectoryPage, hq]
  · intro lastPage hardStop fuel s hpage hbnd hstop
    have hb : (lpTruthy lastPage && decide (lpVal lastPage ≤ s.page)) = false := by
      by_cases h1 : lpTruthy lastPage = true
      · have h2 : ¬(lpVal lastPage ≤ s.page) := fun hle => hbnd ⟨h1, hle⟩
        simp [h1, h2]
      · simp [Bool.eq_false_iff.mpr h1]
    have hise : (fetchDirectoryPage tp s.page).isEmpty = true := by
      rw [hpage, hempty]; rfl
    show (if s.page > hardStop then _ else _) = _
    rw [if_neg hstop]
    show (if (fetchDirectoryPage tp s.page).isEmpty then _ else _) = _
    rw [if_pos hise]
    show (if (lpTruthy lastPage && decide (lpVal lastPage ≤ s.page)) = true then _ else _) = _
    rw [if_neg (by rw [hb]; simp)]

/-! ## Claim C5 -/

theorem cursor_le_start (c : Int) : c ≤ max 1 (jsOrI c 1) := by
  by_cases hc : c = 0
  · subst hc; simp [jsOrI]
  · rw [jsOrI, if_neg hc]; exact le_max_right 1 c

theorem one_le_start (c : Int) : 1 ≤ max 1 (jsOrI c 1) := le_max_left 1 _

/-- The repair pass of a just-created fresh snapshot is the identity. -/
theorem repairPass_toRaw_fresh (now : Int) :
    repairPass now (toRaw (freshSnapshot now)) = freshSnapshot now := by
  simp [repairPass, toRaw, freshSnapshot, repairItems, jsOrInt, sortItems, List.insertionSort]

/-- A batch on an absent store behaves like a batch on the fresh snapshot it
persists. -/
theorem crawlBatch_none_eq (now : Int) (tp : Int → FetchResponse) (k : Int) :
    crawlBatch now tp none k = crawlBatch now tp (some (toRaw (freshSnapshot now))) k := by
  simp only [crawlBatch, loadSnapshot, saveSnapshot, repairPass_toRaw_fresh]

/-- The final page of a batch's loop is at least `max 1 (cursor || 1)`. -/
theorem batchFinal_page_lower (tp : Int → FetchResponse) (snap : Snapshot) (k : Int) :
    max 1 (jsOrI snap.cursor 1) ≤ (batchFinal tp snap k).page :=
  crawlLoop_page_mono tp snap.lastPage (batchHardStop snap) k.toNat (batchInit snap)

/-- Each batch call can only move the persisted cursor forward. -/
theorem storeCursor_le_batch (now : Int) (tp : Int → FetchResponse) :
    ∀ (st : Store) (k : Int), storeCursor st ≤ storeCursor (crawlBatch now tp st k).2 := by
  have hsome : ∀ (raw : RawSnapshot) (k : Int),
      storeCursor (some raw) ≤ storeCursor (crawlBatch now tp (some raw) k).2 := by
    intro raw k
    by_cases h : raw.complete = true
    · rw [crawlBatch_complete_eq now tp raw k h]
    · have h' : raw.complete = false := by
        cases hb : raw.complete
        · rfl
        · exact absurd hb h
      rw [crawlBatch_not_complete now tp raw k h']
      dsimp only
      have hmono := batchFinal_page_lower tp (repairPass now raw) k
      have hstart := cursor_le_start (repairPass now raw).cursor
      have hone := one_le_start (repairPass now raw).cursor
      have hcur : storeCursor (some raw) = (repairPass now raw).cursor := rfl
      rw [hcur]
      show _ ≤ jsOrInt (some (batchFinal tp (repairPass now raw) k).page) 1
      rw [jsOrInt_some_of_ne 1 (by omega)]
      omega
  intro st k
  cases st with
  | some raw => exact hsome raw k
  | none =>
    rw [crawlBatch_none_eq now tp k]
    have h1 : storeCursor (some (toRaw (freshSnapshot now))) = 1 := rfl
    have := hsome (toRaw (freshSnapshot now)) k
    rw [h1] at this
    exact this

/-- C5: within a crawl cycle the cursor never moves backwards — a batch
starts its loop at `max(1, cursor)` and only increments the page index — and
once it is at least 1 it stays at least 1, across any sequence of
`runBatch` calls with no intervening restart or reset. -/
theorem claim5_cursor_monotone :
    ∀ (now : Int) (tp : Int → FetchResponse) (raw : RawSnapshot) (steps : Int),
    ((repairPass now raw).cursor ≤ (crawlBatch now tp (some raw) steps).1.nextCursor) ∧
    (1 ≤ (repairPass now raw).cursor → 1 ≤ (crawlBatch now tp (some raw) steps).1.nextCursor) ∧
    (∀ stepss : List Int,
      storeCursor (some raw) ≤ storeCursor (runBatches now tp (some raw) stepss) ∧
      (1 ≤ storeCursor (some raw) → 1 ≤ storeCursor (runBatches now tp (some raw) stepss))) := by
  intro now tp raw steps
  have hnext : (repairPass now raw).cursor ≤ (crawlBatch now tp (some raw) steps).1.nextCursor ∧
      (1 ≤ (repairPass now raw).cursor →
        1 ≤ (crawlBatch now tp (some raw) steps).1.nextCursor) := by
    by_cases h : raw.complete = true
    · rw [crawlBatch_complete_eq now tp raw steps h]
      exact ⟨le_refl _, fun h1 => h1⟩
    · have h' : raw.complete = false := by
        cases hb : raw.complete
        · rfl
        · exact absurd hb h
      rw [crawlBatch_not_complete now tp raw steps h']
      dsimp only
      have hmono := batchFinal_page_lower tp (repairPass now raw) steps
      have hstart := cursor_le_start (repairPass now raw).cursor
      have hone := one_le_start (repairPass now raw).cursor
      exact ⟨by omega, fun _ => by omega⟩
  refine ⟨hnext.1, hnext.2, ?_⟩
  have hfold : ∀ (stepss : List Int) (st : Store),
      storeCursor st ≤ storeCursor (runBatches now tp st stepss) := by
    intro stepss
    induction stepss with
    | nil => intro st; exact le_refl _
    | cons k rest ih =>
      intro st
      calc storeCursor st ≤ storeCursor (crawlBatch now tp st k).2 :=
            storeCursor_le_batch now tp st k
        _ ≤ _ := ih _
  intro stepss
  exact ⟨hfold stepss (some raw), fun h1 => le_trans h1 (hfold stepss (some raw))⟩

/-- Witness for C5 at a concrete snapshot. -/
theorem claim5_witness :
    1 ≤ (repairPass 5 rawDone).cursor ∧
    1 ≤ (crawlBatch 5 tpNone (some rawDone) 3).1.nextCursor ∧
    1 ≤ storeCursor (runBatches 5 tpNone (some rawDone) [3, 2]) :=
  ⟨by decide, (claim5_cursor_monotone 5 tpNone rawDone 3).2.1 (by decide),
   ((claim5_cursor_monotone 5 tpNone rawDone 3).2.2 [3, 2]).2 (by decide)⟩

/-! ## Claim C4 -/

/-- Merging items whose names are all already seen changes nothing. -/
theorem mergeItems_skip : ∀ {its : List Item} {items : List Item} {seen : List Str} {added : Nat},
    (∀ it ∈ its, it.name ∈ seen) → mergeItems its items seen added = (items, seen, added) := by
  intro its
  induction its with
  | nil => intro items seen added _; rfl
  | cons it rest ih =>
    intro items seen added h
    have hmem : it.name ∈ seen := h it (List.mem_cons_self _ _)
    simp only [mergeItems]
    rw [if_pos (decide_eq_true hmem)]
    exact ih fun x hx => h x (List.mem_cons_of_mem _ hx)

/-- The merge loop preserves the `seen`/names invariant. -/
theorem mergeItems_inv : ∀ {its : List Item} {items : List Item} {seen : List Str} {added : Nat},
    SeenInv items seen →
    SeenInv (mergeItems its items seen added).1 (mergeItems its items seen added).2.1 := by
  intro its
  induction its with
  | nil => intro items seen added h; exact h
  | cons it rest ih =>
    intro items seen added h
    by_cases hmem : it.name ∈ seen
    · simp only [mergeItems]
      rw [if_pos (decide_eq_true hmem)]
      exact ih h
    · have hni : it.name ∉ items.map Item.name := fun hm => hmem ((h.1 it.name).mpr hm)
      simp only [mergeItems]
      rw [if_neg (by simpa using hmem)]
      refine ih ⟨fun n => ?_, ?_⟩
      · simp [List.map_append, List.mem_append, h.1 n]
      · rw [List.map_append]
        refine List.nodup_append.mpr ⟨h.2, List.nodup_singleton _, ?_⟩
        intro a ha
        simp only [List.map_cons, List.map_nil, List.mem_singleton]
        intro he
        exact hni (he ▸ ha)

/-- The page loop preserves the `seen`/names invariant. -/
theorem crawlLoop_inv (tp : Int → FetchResponse) (lastPage : Option Int) (hardStop : Int) :
    ∀ (fuel : Nat) (s : LoopState), SeenInv s.items s.seen →
    SeenInv (crawlLoop tp lastPage hardStop fuel s).items
      (crawlLoop tp lastPage hardStop fuel s).seen := by
  intro fuel
  induction fuel with
  | zero => intro s h; exact h
  | succ n ih =>
    intro s h
    simp only [crawlLoop]
    by_cases h1 : s.page > hardStop
    · rw [if_pos h1]; exact h
    · rw [if_neg h1]
      by_cases h2 : (fetchDirectoryPage tp s.page).isEmpty = true
      · rw [if_pos h2]
        by_cases h3 : (lpTruthy lastPage && decide (lpVal lastPage ≤ s.page)) = true
        · rw [if_pos h3]; exact h
        · rw [if_neg h3]; exact ih _ h
      · rw [if_neg h2]
        exact ih _ (mergeItems_inv h)

/-- If every fetched item is already seen, the page loop changes no
content: items, seen and the added counter stay put. -/
theorem crawlLoop_noop (tp : Int → FetchResponse) (lastPage : Option Int) (hardStop : Int) :
    ∀ (fuel : Nat) (s : LoopState),
    (∀ p it, it ∈ fetchDirectoryPage tp p → it.name ∈ s.seen) →
    (crawlLoop tp lastPage hardStop fuel s).items = s.items ∧
    (crawlLoop tp lastPage hardStop fuel s).seen = s.seen ∧
    (crawlLoop tp lastPage hardStop fuel s).added = s.added := by
  intro fuel
  induction fuel with
  | zero => intro s _; exact ⟨rfl, rfl, rfl⟩
  | succ n ih =>
    intro s h
    simp only [crawlLoop]
    by_cases h1 : s.page > hardStop
    · rw [if_pos h1]; exact ⟨rfl, rfl, rfl⟩
    · rw [if_neg h1]
      by_cases h2 : (fetchDirectoryPage tp s.page).isEmpty = true
      · rw [if_pos h2]
        by_cases h3 : (lpTruthy lastPage && decide (lpVal lastPage ≤ s.page)) = true
        · rw [if_pos h3]; exact ⟨rfl, rfl, rfl⟩
        · rw [if_neg h3]; exact ih _ h
      · rw [if_neg h2]
        rw [mergeItems_skip (fun it hit => h s.page it hit)]
        exact ih _ h

/-- Structural facts established by the repair pass: names and `seen` agree,
names are unique and valid, URLs are canonical, and the items are sorted. -/
theorem repairItems_inv : ∀ (raws : List RawItem) (acc : List Item) (seen : List Str),
    acc.map Item.name = seen → seen.Nodup →
    (∀ it ∈ acc, slugRe it.name = true ∧ it.name ∉ BAD_SLUGS ∧ it.url = urlOf it.name) →
    ((repairItems raws acc seen).1.map Item.name = (repairItems raws acc seen).2 ∧
     (repairItems raws acc seen).2.Nodup ∧
     (∀ it ∈ (repairItems raws acc seen).1,
        slugRe it.name = true ∧ it.name ∉ BAD_SLUGS ∧ it.url = urlOf it.name)) := by
  intro raws
  induction raws with
  | nil => intro acc seen h1 h2 h3; exact ⟨h1, h2, h3⟩
  | cons it rest ih =>
    intro acc seen h1 h2 h3
    simp only [repairItems]
    cases hcand : jsOrStr (extractSlugFromUrl it.url) (it.name.map toLowerStr) with
    | none => exact ih acc seen h1 h2 h3
    | some c =>
      dsimp only
      by_cases hg : (decide (c = []) || !slugRe c || decide (c ∈ BAD_SLUGS) ||
          decide (c ∈ seen)) = true
      · rw [if_pos hg]
        exact ih acc seen h1 h2 h3
      · have hparts := hg
        simp only [Bool.or_eq_true, decide_eq_true_eq, Bool.not_eq_true',
          not_or, Bool.not_eq_false] at hparts
        obtain ⟨⟨⟨hne, hre⟩, hbad⟩, hseen⟩ := hparts
        rw [if_neg hg]
        refine ih (acc ++ [{ name := c, url := urlOf c }]) (seen ++ [c]) ?_ ?_ ?_
        · rw [List.map_append, h1]
          rfl
        · refine List.nodup_append.mpr ⟨h2, List.nodup_singleton _, ?_⟩
          intro a ha
          simp only [List.mem_singleton]
          intro he
          exact hseen (he ▸ ha)
        · intro x hx
          rcases List.mem_append.mp hx with hx | hx
          · exact h3 x hx
          · rcases List.mem_singleton.mp hx with rfl
            exact ⟨hre, hbad, rfl⟩

theorem repairPass_facts (now : Int) (raw : RawSnapshot) :
    ((repairPass now raw).items.map Item.name).Nodup ∧
    (∀ n, n ∈ (repairPass now raw).seen ↔ n ∈ (repairPass now raw).items.map Item.name) ∧
    (∀ it ∈ (repairPass now raw).items,
        slugRe it.name = true ∧ it.name ∉ BAD_SLUGS ∧ it.url = urlOf it.name) ∧
    (repairPass now raw).items.Pairwise (fun a b => itemLe a b = true) := by
  have hinv := repairItems_inv raw.items [] [] rfl List.nodup_nil (by intro it h; cases h)
  have hperm : ((sortItems (repairItems raw.items [] []).1).map Item.name).Perm
      ((repairItems raw.items [] []).1.map Item.name) :=
    (sortItems_perm _).map Item.name
  have hitems : (repairPass now raw).items = sortItems (repairItems raw.items [] []).1 := rfl
  have hseen : (repairPass now raw).seen = (repairItems raw.items [] []).2 := rfl
  refine ⟨?_, ?_, ?_, ?_⟩
  · rw [hitems]
    exact hperm.nodup_iff.mpr (hinv.1 ▸ hinv.2.1)
  · intro n
    rw [hseen, hitems, hperm.mem_iff, ← hinv.1]
  · intro it hit
    rw [hitems] at hit
    exact hinv.2.2 it ((sortItems_perm _).mem_iff.mp hit)
  · rw [hitems]
    exact sortItems_sorted _

/-- `SeenInv` holds for every loaded snapshot. -/
theorem repairPass_seenInv (now : Int) (raw : RawSnapshot) :
    SeenInv (repairPass now raw).items (repairPass now raw).seen :=
  ⟨(repairPass_facts now raw).2.1, (repairPass_facts now raw).1⟩

/-- C4: merging is an idempotent union by name — an item whose name is
already present is never inserted again, the item set never acquires two
items with the same name, and a batch over pages whose items are all
already seen reports `addedItems = 0` and persists the item list
unchanged. -/
theorem claim4_merge_idempotent_union :
    ∀ (now : Int) (tp : Int → FetchResponse) (raw : RawSnapshot) (steps : Int),
    (∀ (its : List Item) (items : List Item) (seen : List Str) (added : Nat),
      (∀ it ∈ its, it.name ∈ seen) → mergeItems its items seen added = (items, seen, added)) ∧
    (raw.complete = false →
      ∀ raw', (crawlBatch now tp (some raw) steps).2 = some raw' →
        (raw'.items.filterMap RawItem.name).Nodup) ∧
    (raw.complete = false →
      (∀ p it, it ∈ fetchDirectoryPage tp p → it.name ∈ (repairPass now raw).seen) →
      (crawlBatch now tp (some raw) steps).1.addedItems = 0 ∧
      (∀ raw', (crawlBatch now tp (some raw) steps).2 = some raw' →
        raw'.items = (repairPass now raw).items.map toRawItem)) := by
  intro now tp raw steps
  refine ⟨fun its items seen added h => mergeItems_skip h, ?_, ?_⟩
  · intro hnc raw' heq
    rw [crawlBatch_not_complete now tp raw steps hnc] at heq
    dsimp only at heq
    simp only [saveSnapshot] at heq
    injection heq with heq
    subst heq
    have hinv : SeenInv (batchFinal tp (repairPass now raw) steps).items
        (batchFinal tp (repairPass now raw) steps).seen :=
      crawlLoop_inv tp _ _ _ _ (repairPass_seenInv now raw)
    have hnodup : ((sortItems (batchFinal tp (repairPass now raw) steps).items).map
        Item.name).Nodup :=
      (((sortItems_perm _).map Item.name).nodup_iff).mpr hinv.2
    show ((((sortItems (batchFinal tp (repairPass now raw) steps).items).map
        toRawItem)).filterMap RawItem.name).Nodup
    rw [show ∀ l : List Item, (l.map toRawItem).filterMap RawItem.name = l.map Item.name by
      intro l
      induction l with
      | nil => rfl
      | cons x xs ih => simp [toRawItem, ih]]
    exact hnodup
  · intro hnc hseen
    have hnoop := crawlLoop_noop tp (repairPass now raw).lastPage
      (batchHardStop (repairPass now raw)) steps.toNat (batchInit (repairPass now raw))
      (fun p it hit => hseen p it hit)
    have hsorted : sortItems (batchFinal tp (repairPass now raw) steps).items =
        (repairPass now raw).items := by
      rw [show (batchFinal tp (repairPass now raw) steps).items =
          (batchInit (repairPass now raw)).items from hnoop.1]
      exact sortItems_of_sorted (repairPass_facts now raw).2.2.2
    constructor
    · rw [crawlBatch_not_complete now tp raw steps hnc]
      exact hnoop.2.2
    · intro raw' heq
      rw [crawlBatch_not_complete now tp raw steps hnc] at heq
      dsimp only at heq
      simp only [saveSnapshot] at heq
      injection heq with heq
      subst heq
      show (sortItems (batchFinal tp (repairPass now raw) steps).items).map toRawItem = _
      rw [hsorted]

/-- Witness for C4 at a concrete input: a snapshot already containing
`nginx`, crawled again over a page listing `nginx`. -/
theorem claim4_witness :
    rawDup.complete = false ∧
    (∀ p it, it ∈ fetchDirectoryPage tpNginx p → it.name ∈ (repairPass 5 rawDup).seen) ∧
    (crawlBatch 5 tpNginx (some rawDup) 3).1.addedItems = 0 := by
  have hseen : ∀ p it, it ∈ fetchDirectoryPage tpNginx p →
      it.name ∈ (repairPass 5 rawDup).seen := by
    intro p it hit
    by_cases hp : p = 1
    · subst hp
      rw [show fetchDirectoryPage tpNginx 1 =
          [{ name := "nginx".data, url := urlOf "nginx".data }] from by decide] at hit
      rcases List.mem_singleton.mp hit with rfl
      decide
    · rw [show fetchDirectoryPage tpNginx p = [] from by
          simp [fetchDirectoryPage, tpNginx, hp]] at hit
      cases hit
  exact ⟨rfl, hseen, ((claim4_merge_idempotent_union 5 tpNginx rawDup 3).2.2 rfl hseen).1⟩

/-! ## Claim C6 -/

theorem baseWeight_restricted_eq {c : Char} (h : restrictedChar c = true) :
    baseWeight c = wOf c.toNat ∧
    (c.toNat = 45 ∨ c.toNat = 46 ∨ (48 ≤ c.toNat ∧ c.toNat ≤ 57) ∨
      (97 ≤ c.toNat ∧ c.toNat ≤ 122)) := by
  have hch : ∀ d : Char, c.toNat = d.toNat → c = d := by
    intro d hd
    rw [← Char.ofNat_toNat c, ← Char.ofNat_toNat d, hd]
  simp only [restrictedChar, Bool.or_eq_true, decide_eq_true_eq,
    isAsciiDigit, isAsciiLower, Bool.and_eq_true, decide_eq_true_eq] at h
  rcases h with ((⟨hlo, hhi⟩ | ⟨hlo, hhi⟩) | hdot) | hdash
  · -- digit
    have hne1 : ¬(c = '_') := fun he => by subst he; revert hlo hhi; decide
    have hne2 : ¬(c = '-') := fun he => by subst he; revert hlo hhi; decide
    have hne3 : ¬(c = '.') := fun he => by subst he; revert hlo hhi; decide
    have hne4 : ¬(c = '+') := fun he => by subst he; revert hlo hhi; decide
    have hdg : isAsciiDigit c = true := by simp [isAsciiDigit, hlo, hhi]
    refine ⟨?_, Or.inr (Or.inr (Or.inl ⟨hlo, hhi⟩))⟩
    rw [baseWeight, if_neg hne1, if_neg hne2, if_neg hne3, if_neg hne4, if_pos hdg]
    rw [wOf, if_neg (by omega), if_neg (by omega), if_pos ⟨hlo, hhi⟩]
  · -- lowercase letter
    have hne1 : ¬(c = '_') := fun he => by subst he; revert hlo hhi; decide
    have hne2 : ¬(c = '-') := fun he => by subst he; revert hlo hhi; decide
    have hne3 : ¬(c = '.') := fun he => by subst he; revert hlo hhi; decide
    have hne4 : ¬(c = '+') := fun he => by subst he; revert hlo hhi; decide
    have hdg : isAsciiDigit c = false := by simp [isAsciiDigit]; omega
    have hlw : isAsciiLower c = true := by simp [isAsciiLower, hlo, hhi]
    refine ⟨?_, Or.inr (Or.inr (Or.inr ⟨hlo, hhi⟩))⟩
    rw [baseWeight, if_neg hne1, if_neg hne2, if_neg hne3, if_neg hne4, hdg]
    rw [if_neg (by simp), if_pos hlw]
    rw [wOf, if_neg (by omega), if_neg (by omega), if_neg (by omega)]
  · subst hdot
    exact ⟨by decide, Or.inr (Or.inl rfl)⟩
  · subst hdash
    exact ⟨by decide, Or.inl rfl⟩

theorem baseWeight_lt_iff {c d : Char} (hc : restrictedChar c = true)
    (hd : restrictedChar d = true) :
    (baseWeight c < baseWeight d) ↔ (c.toNat < d.toNat) := by
  obtain ⟨he1, hr1⟩ := baseWeight_restricted_eq hc
  obtain ⟨he2, hr2⟩ := baseWeight_restricted_eq hd
  rw [he1, he2]
  unfold wOf
  split_ifs <;> omega

theorem toLowerChar_restricted {c : Char} (hc : restrictedChar c = true) :
    toLowerChar c = c := by
  obtain ⟨_, hr⟩ := baseWeight_restricted_eq hc
  rw [toLowerChar, if_neg]
  simp only [Bool.and_eq_true, decide_eq_true_eq, not_and]
  omega

/-- On `_`/`+`-free slug strings the locale comparator and case-insensitive
lexicographic order agree. -/
theorem lcb_le_iff_ciLex : ∀ {a b : Str},
    (∀ c ∈ a, restrictedChar c = true) → (∀ c ∈ b, restrictedChar c = true) →
    ((localeCompareBase a b ≤ 0) ↔ ciLexLe a b = true) := by
  intro a
  induction a with
  | nil =>
    intro b _ _
    cases b <;> simp [localeCompareBase, ciLexLe]
  | cons x xs ih =>
    intro b ha hb
    cases b with
    | nil =>
      simp [localeCompareBase, ciLexLe]
    | cons y ys =>
      have hx := ha x (List.mem_cons_self _ _)
      have hy := hb y (List.mem_cons_self _ _)
      have hlt := baseWeight_lt_iff hx hy
      have hgt := baseWeight_lt_iff hy hx
      have hlx := toLowerChar_restricted hx
      have hly := toLowerChar_restricted hy
      simp only [localeCompareBase, ciLexLe, hlx, hly]
      by_cases h1 : baseWeight x < baseWeight y
      · rw [if_pos h1, if_pos (hlt.mp h1)]
        norm_num
      · have hxy : ¬(x.toNat < y.toNat) := fun hn => h1 (hlt.mpr hn)
        rw [if_neg h1, if_neg hxy]
        by_cases h2 : baseWeight y < baseWeight x
        · rw [if_pos h2, if_pos (hgt.mp h2)]
          norm_num
        · have hyx : ¬(y.toNat < x.toNat) := fun hn => h2 (hgt.mpr hn)
          rw [if_neg h2, if_neg hyx]
          exact ih (fun c hc => ha c (List.mem_cons_of_mem _ hc))
            (fun c hc => hb c (List.mem_cons_of_mem _ hc))

/-- A valid slug with no `_` and no `+` is made of restricted characters. -/
theorem slug_restricted : ∀ {s : Str}, slugRe s = true → '_' ∉ s → '+' ∉ s →
    ∀ c ∈ s, restrictedChar c = true := by
  intro s hs h1 h2 c hc
  cases s with
  | nil => cases hc
  | cons c0 t =>
    simp only [slugRe, Bool.and_eq_true, Bool.or_eq_true, List.all_eq_true] at hs
    rcases List.mem_cons.mp hc with rfl | hct
    · rcases hs.1 with h | h <;> simp [restrictedChar, h]
    · have hcl := hs.2 c hct
      simp only [lowerSlugChar, Bool.or_eq_true, decide_eq_true_eq] at hcl
      have hne1 : c ≠ '_' := fun he => h1 (he ▸ hc)
      have hne2 : c ≠ '+' := fun he => h2 (he ▸ hc)
      rcases hcl with ((((h | h) | h) | h) | h) | h <;>
        simp [restrictedChar, h] at hne1 hne2 ⊢

/-- Insertion order cannot matter when no two names collate equal. -/
theorem sortItems_perm_indep {l₁ l₂ : List Item} (hp : l₁.Perm l₂)
    (hw : (l₁.map fun it => it.name.map baseWeight).Nodup) :
    sortItems l₁ = sortItems l₂ :=
  sorted_perm_eq (sortItems_sorted l₁) (sortItems_sorted l₂)
    ((sortItems_perm l₁).trans (hp.trans (sortItems_perm l₂).symm))
    (((sortItems_perm l₁).map fun it => it.name.map baseWeight).nodup_iff.mpr hw)

/-- Counterexample for C6 as stated: `sortItems` places `a_a` before `a-a`,
but case-insensitive lexicographic order puts `a-a` first; and the
comparator also disagrees with lexicographic order on `a.a` vs `a+a`.  All
four names are valid slugs. -/
theorem claim6_counterexample :
    slugRe "a_a".data = true ∧ slugRe "a-a".data = true ∧
    slugRe "a.a".data = true ∧ slugRe "a+a".data = true ∧
    (sortItems [{ name := "a_a".data, url := urlOf "a_a".data },
                { name := "a-a".data, url := urlOf "a-a".data }]).map Item.name =
      ["a_a".data, "a-a".data] ∧
    ciLexLe "a_a".data "a-a".data = false ∧
    (localeCompareBase "a.a".data "a+a".data ≤ 0) ∧
    ciLexLe "a.a".data "a+a".data = false := by
  decide

/-- C6 (amended): `list()` returns items sorted by the `en`/base locale
comparator; that order is independent of insertion order whenever no two
names collate equal; and the comparator agrees with case-insensitive
lexicographic order on valid slug names containing neither `_` nor `+`
(but not on the full slug alphabet, by `claim6_counterexample`). -/
theorem claim6_sort_locale_order :
    (∀ l : List Item, (sortItems l).Pairwise (fun a b => itemLe a b = true)) ∧
    (∀ l₁ l₂ : List Item, l₁.Perm l₂ →
      (l₁.map fun it => it.name.map baseWeight).Nodup → sortItems l₁ = sortItems l₂) ∧
    (∀ a b : Str, slugRe a = true → slugRe b = true →
      '_' ∉ a → '+' ∉ a → '_' ∉ b → '+' ∉ b →
      ((localeCompareBase a b ≤ 0) ↔ ciLexLe a b = true)) :=
  ⟨sortItems_sorted,
   fun _ _ hp hw => sortItems_perm_indep hp hw,
   fun _ _ ha hb ha1 ha2 hb1 hb2 =>
     lcb_le_iff_ciLex (slug_restricted ha ha1 ha2) (slug_restricted hb hb1 hb2)⟩

/-- Witness for C6 at concrete inputs. -/
theorem claim6_witness :
    (([{ name := "node".data, url := urlOf "node".data },
       { name := "zlib".data, url := urlOf "zlib".data }] : List Item).Perm
      [{ name := "zlib".data, url := urlOf "zlib".data },
       { name := "node".data, url := urlOf "node".data }]) ∧
    sortItems [{ name := "node".data, url := urlOf "node".data },
               { name := "zlib".data, url := urlOf "zlib".data }] =
      sortItems [{ name := "zlib".data, url := urlOf "zlib".data },
                 { name := "node".data, url := urlOf "node".data }] ∧
    ((localeCompareBase "node".data "nodejs".data ≤ 0) ↔
      ciLexLe "node".data "nodejs".data = true) :=
  ⟨by decide,
   claim6_sort_locale_order.2.1 _ _ (by decide) (by decide),
   claim6_sort_locale_order.2.2 "node".data "nodejs".data (by decide) (by decide)
     (by decide) (by decide) (by decide) (by decide)⟩

/-! ## Claim C8 -/

/-- C8: a tick that takes `cronTicks` from 1439 to the 1440 threshold
persists the full-cycle reset — `complete = false`, `cursor = 1`,
`cronTicks = 0` — and the crawl batch the tick then runs loads that store
and starts its loop at page 1; a tick that stays below the threshold
persists only the incremented `cronTicks` before running its batch. -/
theorem claim8_scheduler_threshold :
    ∀ (now : Int) (tp : Int → FetchResponse) (raw : RawSnapshot),
    (scheduled now tp (some raw) =
      (crawlBatch now tp (schedTick now (some raw)) BATCH_PAGES_DEFAULT).2) ∧
    (raw.cronTicks = some 1439 →
      schedTick now (some raw) =
        saveSnapshot { repairPass now raw with complete := false, cursor := 1, cronTicks := 0 } ∧
      (loadSnapshot now (schedTick now (some raw))).1.cursor = 1 ∧
      (loadSnapshot now (schedTick now (some raw))).1.complete = false ∧
      (loadSnapshot now (schedTick now (some raw))).1.cronTicks = 0 ∧
      batchStartPage now (schedTick now (some raw)) = 1) ∧
    (∀ t : Int, raw.cronTicks = some t → t + 1 < 1440 →
      schedTick now (some raw) =
        saveSnapshot { repairPass now raw with
          cronTicks := (repairPass now raw).cronTicks + 1 }) := by
  intro now tp raw
  refine ⟨rfl, ?_, ?_⟩
  · intro h1439
    have hct : (repairPass now raw).cronTicks = 1439 := by
      show jsOrInt raw.cronTicks 0 = 1439
      rw [h1439, jsOrInt_some_zero]
    have htick : schedTick now (some raw) =
        saveSnapshot { repairPass now raw with complete := false, cursor := 1, cronTicks := 0 } := by
      show (if (repairPass now raw).cronTicks + 1 ≥ 1440 then _ else _) = _
      rw [if_pos (by rw [hct]; norm_num)]
      rfl
    refine ⟨htick, ?_, ?_, ?_, ?_⟩
    · rw [htick]; rfl
    · rw [htick]; rfl
    · rw [htick]; rfl
    · rw [htick]
      show max 1 (jsOrI (jsOrInt (some (1 : Int)) 1) 1) = 1
      decide
  · intro t ht hlt
    have hct : (repairPass now raw).cronTicks = t := by
      show jsOrInt raw.cronTicks 0 = t
      rw [ht, jsOrInt_some_zero]
    show (if (repairPass now raw).cronTicks + 1 ≥ 1440 then _ else _) = _
    rw [if_neg (by rw [hct]; omega)]
    have hct' : (loadSnapshot now (some raw)).1.cronTicks = t := hct
    rw [hct', hct]
    rfl

/-- Witness for C8: a tick at 1439 and a tick below the threshold, on
concrete snapshots. -/
theorem claim8_witness :
    (rawTick 1439).cronTicks = some 1439 ∧
    (loadSnapshot 5 (schedTick 5 (some (rawTick 1439)))).1.cursor = 1 ∧
    (loadSnapshot 5 (schedTick 5 (some (rawTick 1439)))).1.complete = false ∧
    batchStartPage 5 (schedTick 5 (some (rawTick 1439))) = 1 ∧
    ((rawTick 7).cronTicks = some 7 ∧ (7 : Int) + 1 < 1440 ∧
      schedTick 5 (some (rawTick 7)) =
        saveSnapshot { repairPass 5 (rawTick 7) with
          cronTicks := (repairPass 5 (rawTick 7)).cronTicks + 1 }) :=
  ⟨rfl,
   ((claim8_scheduler_threshold 5 tpNone (rawTick 1439)).2.1 rfl).2.1,
   ((claim8_scheduler_threshold 5 tpNone (rawTick 1439)).2.1 rfl).2.2.1,
   ((claim8_scheduler_threshold 5 tpNone (rawTick 1439)).2.1 rfl).2.2.2.2,
   ⟨rfl, by norm_num,
    (claim8_scheduler_threshold 5 tpNone (rawTick 7)).2.2 7 rfl (by norm_num)⟩⟩

/-- Witness for C9 at a concrete failing transport. -/
theorem claim9_witness :
    (tpNone 2).ok = false ∧ fetchDirectoryPage tpNone 2 = [] ∧
    crawlLoop tpNone none 5000 (3 + 1)
        { items := [], seen := [], page := 2, crawled := 0, added := 0, complete := false } =
      crawlLoop tpNone none 5000 3
        { items := [], seen := [], page := 3, crawled := 1, added := 0, complete := false } :=
  ⟨rfl, (claim9_fetch_failure_empty tpNone 2 rfl).1,
   (claim9_fetch_failure_empty tpNone 2 rfl).2.2 none 5000 3
     { items := [], seen := [], page := 2, crawled := 0, added := 0, complete := false }
     rfl (by decide) (by decide)⟩

/-! ## Claim C2 -/

theorem slugRe_ne_nil {s : Str} (h : slugRe s = true) : s ≠ [] := by
  cases s with
  | nil => cases h
  | cons c t => exact fun he => List.noConfusion he

theorem slug_chars {s : Str} (h : slugRe s = true) : ∀ c ∈ s, lowerSlugChar c = true := by
  cases s with
  | nil => intro c hc; cases hc
  | cons c0 t =>
    simp only [slugRe, Bool.and_eq_true, Bool.or_eq_true, List.all_eq_true] at h
    intro c hc
    rcases List.mem_cons.mp hc with rfl | hct
    · rcases h.1 with hd | hl
      · simp [lowerSlugChar, hd]
      · simp [lowerSlugChar, hl]
    · exact h.2 c hct

theorem encodeChar_slug {c : Char} (h : lowerSlugChar c = true) (h2 : c ≠ '+') :
    encodeChar c = [c] := by
  have hu : uriUnreserved c = true := by
    simp only [lowerSlugChar, Bool.or_eq_true, decide_eq_true_eq] at h
    rcases h with ((((hd | hl) | hdot) | hus) | hp) | hm
    · simp [uriUnreserved, isAsciiAlnum, hd]
    · simp [uriUnreserved, isAsciiAlnum, hl]
    · subst hdot; decide
    · subst hus; decide
    · exact absurd hp h2
    · subst hm; decide
  rw [encodeChar, if_pos hu]

theorem encode_eq_self {s : Str} (h : ∀ c ∈ s, lowerSlugChar c = true) (h2 : '+' ∉ s) :
    encodeURIComponentStr s = s := by
  induction s with
  | nil => rfl
  | cons c t ih =>
    rw [show encodeURIComponentStr (c :: t) = encodeChar c ++ encodeURIComponentStr t from rfl]
    rw [encodeChar_slug (h c (List.mem_cons_self _ _)) (fun he => h2 (he ▸ List.mem_cons_self c t))]
    rw [ih (fun d hd => h d (List.mem_cons_of_mem _ hd)) (fun hm => h2 (List.mem_cons_of_mem _ hm))]
    rfl

theorem percentDecode_cons_of_ne {c : Char} {t : Str} (h : c ≠ '%') :
    percentDecode (c :: t) = c :: percentDecode t := by
  rw [percentDecode.eq_def]
  dsimp only
  rw [if_neg h]

theorem decode_eq_self {s : Str} (h : ∀ c ∈ s, lowerSlugChar c = true) :
    percentDecode s = s := by
  induction s with
  | nil => rfl
  | cons c t ih =>
    have hne : c ≠ '%' := by
      intro he
      have := h c (List.mem_cons_self _ _)
      rw [he] at this
      cases this
    rw [percentDecode_cons_of_ne hne, ih (fun d hd => h d (List.mem_cons_of_mem _ hd))]

theorem toLowerChar_slug {c : Char} (h : lowerSlugChar c = true) : toLowerChar c = c := by
  simp only [lowerSlugChar, Bool.or_eq_true, decide_eq_true_eq, isAsciiDigit, isAsciiLower,
    Bool.and_eq_true] at h
  rw [toLowerChar, if_neg]
  simp only [Bool.and_eq_true, decide_eq_true_eq, not_and]
  rcases h with ((((⟨hlo, hhi⟩ | ⟨hlo, hhi⟩) | hdot) | hus) | hp) | hm
  · omega
  · omega
  · subst hdot; decide
  · subst hus; decide
  · subst hp; decide
  · subst hm; decide

theorem toLower_slug {s : Str} (h : ∀ c ∈ s, lowerSlugChar c = true) : toLowerStr s = s := by
  induction s with
  | nil => rfl
  | cons c t ih =>
    rw [show toLowerStr (c :: t) = toLowerChar c :: toLowerStr t from rfl]
    rw [toLowerChar_slug (h c (List.mem_cons_self _ _)),
      ih (fun d hd => h d (List.mem_cons_of_mem _ hd))]

theorem takeWhile_all {p : Char → Bool} : ∀ {l : Str}, (∀ c ∈ l, p c = true) →
    l.takeWhile p = l := by
  intro l
  induction l with
  | nil => intro _; rfl
  | cons c t ih =>
    intro h
    rw [List.takeWhile_cons, if_pos (h c (List.mem_cons_self _ _))]
    rw [ih (fun d hd => h d (List.mem_cons_of_mem _ hd))]

theorem strip_of_endsWord {l : Str} (h : endsInWord l = true) : stripTrailNonWord l = l := by
  cases hr : l.reverse with
  | nil =>
    have : l = [] := by simpa using congrArg List.reverse hr
    subst this
    cases h
  | cons c r =>
    have hlast : l.getLast? = some c := by
      rw [← List.head?_reverse, hr]
      rfl
    have hwc : wordChar c = true := by
      rw [endsInWord, hlast] at h
      exact h
    rw [stripTrailNonWord, hr]
    rw [List.dropWhile_cons, if_neg (by simp [hwc])]
    rw [← hr, List.reverse_reverse]

theorem captureAt_slug {s : Str} (h : slugRe s = true) (hw : endsInWord s = true) :
    captureAt s = some s := by
  cases s with
  | nil => cases h
  | cons c0 t =>
    have hall := slug_chars h
    have halnum : isAsciiAlnum c0 = true := by
      simp only [slugRe, Bool.and_eq_true, Bool.or_eq_true] at h
      rcases h.1 with hd | hl
      · simp [isAsciiAlnum, hd]
      · simp [isAsciiAlnum, hl]
    have hclass : t.takeWhile slugClassChar = t := by
      refine takeWhile_all fun c hc => ?_
      have := hall c (List.mem_cons_of_mem _ hc)
      simp only [lowerSlugChar, Bool.or_eq_true, decide_eq_true_eq] at this
      rcases this with ((((hd | hl) | hdot) | hus) | hp) | hm
      · simp [slugClassChar, isAsciiAlnum, hd]
      · simp [slugClassChar, isAsciiAlnum, hl]
      · simp [slugClassChar, hdot]
      · simp [slugClassChar, hus]
      · simp [slugClassChar, hp]
      · simp [slugClassChar, hm]
    rw [captureAt, if_pos halnum, hclass]
    rw [strip_of_endsWord hw]

/-- Scanning the canonical URL prefix: the regex's leftmost match sits right
after `https://images.chainguard.dev/directory/image/`. -/
theorem isPrefixOf_append_self : ∀ (l s : Str), l.isPrefixOf (l ++ s) = true := by
  intro l
  induction l with
  | nil => intro s; cases s <;> rfl
  | cons c t ih => intro s; simp [List.isPrefixOf, ih]

theorem scanSlug_cons_hit {c : Char} {t : Str}
    (hpre : imageLit.isPrefixOf (c :: t) = true) {cap : Str}
    (hcap : captureAt ((c :: t).drop imageLit.length) = some cap) :
    scanSlug (c :: t) = some cap := by
  show (if imageLit.isPrefixOf (c :: t) then _ else _) = _
  rw [if_pos hpre, hcap]

theorem scanSlug_url {s cap : Str} (h : captureAt s = some cap) :
    scanSlug (ORIGIN ++ (imageLit ++ s)) = some cap := by
  have key : scanSlug (ORIGIN ++ (imageLit ++ s)) = scanSlug (imageLit ++ s) := rfl
  rw [key]
  show scanSlug ('/' :: ("directory/image/".data ++ s)) = some cap
  exact @scanSlug_cons_hit '/' ("directory/image/".data ++ s)
    (isPrefixOf_append_self imageLit s) cap h

/-- The extraction regex recovers a canonical item's slug exactly, provided
the slug has no `+` (so percent-encoding is the identity on it) and ends in
a word character (so the `\b` backtracking strips nothing). -/
theorem extract_urlOf {n : Str} (h : slugRe n = true) (hb : n ∉ BAD_SLUGS)
    (hplus : '+' ∉ n) (hw : endsInWord n = true) :
    extractImageSlug (urlOf n) = some n := by
  have hchars := slug_chars h
  have hurl : urlOf n = ORIGIN ++ (imageLit ++ n) := by
    rw [urlOf, encode_eq_self hchars hplus, List.append_assoc]
  rw [extractImageSlug, hurl, scanSlug_url (captureAt_slug h hw)]
  dsimp only
  rw [decode_eq_self hchars, toLower_slug hchars]
  rw [if_pos (by simp [h, hb])]

/-- Re-running the item-repair loop over canonical, deduplicated items is
the identity (it re-derives each slug from the stored URL and keeps it). -/
theorem repairItems_canonical : ∀ (its : List Item) (acc : List Item) (seen : List Str),
    (∀ it ∈ its, slugRe it.name = true ∧ it.name ∉ BAD_SLUGS ∧ it.url = urlOf it.name ∧
      '+' ∉ it.name ∧ endsInWord it.name = true) →
    (its.map Item.name).Nodup →
    (∀ it ∈ its, it.name ∉ seen) →
    repairItems (its.map toRawItem) acc seen = (acc ++ its, seen ++ its.map Item.name) := by
  intro its
  induction its with
  | nil =>
    intro acc seen _ _ _
    rw [List.map_nil]
    show (acc, seen) = _
    simp
  | cons it rest ih =>
    intro acc seen hgood hnd hns
    obtain ⟨hre, hbad, hurl, hplus, hword⟩ := hgood it (List.mem_cons_self _ _)
    have hx : extractSlugFromUrl (toRawItem it).url = some it.name := by
      rw [show (toRawItem it).url = some it.url from rfl, hurl]
      exact extract_urlOf hre hbad hplus hword
    simp only [List.map_cons, repairItems]
    rw [hx]
    rw [show jsOrStr (some it.name) ((toRawItem it).name.map toLowerStr) = some it.name from by
      rw [jsOrStr, if_neg (slugRe_ne_nil hre)]]
    dsimp only
    rw [if_neg (by
      simp only [Bool.or_eq_true, decide_eq_true_eq, Bool.not_eq_true', not_or,
        Bool.not_eq_false]
      push_neg
      exact ⟨⟨⟨slugRe_ne_nil hre, hre⟩, hbad⟩, hns it (List.mem_cons_self _ _)⟩)]
    rw [show ({ name := it.name, url := urlOf it.name } : Item) = it from by
      cases it with
      | mk nm u => simp at hurl ⊢; exact hurl.symm]
    rw [ih (acc ++ [it]) (seen ++ [it.name])
      (fun x hx => hgood x (List.mem_cons_of_mem _ hx))
      ((List.nodup_cons.mp hnd).2)
      (fun x hx => by
        intro hmem
        rcases List.mem_append.mp hmem with hm | hm
        · exact hns x (List.mem_cons_of_mem _ hx) hm
        · rcases List.mem_singleton.mp hm with he
          exact (List.nodup_cons.mp hnd).1 (he ▸ List.mem_map_of_mem Item.name hx))]
    rw [List.append_assoc, List.append_assoc]
    rfl

/-- Counterexample for C2 as stated: repairing twice is not the same as
repairing once.  A snapshot holding items named `foo.` and `libstdc++`
(with no stored URL) survives the first repair with those names, but the
second repair re-derives the slugs from the URLs the first repair wrote —
`foo.` (percent-free, but ending in `.`, which the regex's `\b` strips)
becomes `foo`, and `libstdc++` (percent-encoded to `libstdc%2B%2B`, which
the regex capture stops at) becomes `libstdc`. -/
theorem claim2_counterexample :
    (repairPass 7 rawPlus).items.map Item.name = ["foo.".data, "libstdc++".data] ∧
    (repairPass 7 (toRaw (repairPass 7 rawPlus))).items.map Item.name =
      ["foo".data, "libstdc".data] ∧
    repairPass 7 (toRaw (repairPass 7 rawPlus)) ≠ repairPass 7 rawPlus := by
  decide

/-- C2 (amended): the load-time repair pass is idempotent on snapshots whose
surviving item names contain no `+` and end in a word character (letter,
digit or underscore): a second repair leaves the items, every defaulted
scalar field, and the `seen` index (as a set) unchanged.  Without those two
conditions a second repair can rename items (`claim2_counterexample`).  The
`now ≠ 0` hypothesis says the clock is not exactly the Unix epoch, where the
`lastUpdated || epoch()` default would misfire on a stored 0. -/
theorem claim2_repair_idempotent :
    ∀ (now now2 : Int) (raw : RawSnapshot), now ≠ 0 →
    (∀ it ∈ (repairPass now raw).items, '+' ∉ it.name ∧ endsInWord it.name = true) →
    ((repairPass now2 (toRaw (repairPass now raw))).items = (repairPass now raw).items ∧
     (repairPass now2 (toRaw (repairPass now raw))).cursor = (repairPass now raw).cursor ∧
     (repairPass now2 (toRaw (repairPass now raw))).lastPage = (repairPass now raw).lastPage ∧
     (repairPass now2 (toRaw (repairPass now raw))).complete = (repairPass now raw).complete ∧
     (repairPass now2 (toRaw (repairPass now raw))).lastUpdated =
       (repairPass now raw).lastUpdated ∧
     (repairPass now2 (toRaw (repairPass now raw))).cronTicks = (repairPass now raw).cronTicks ∧
     (∀ n, n ∈ (repairPass now2 (toRaw (repairPass now raw))).seen ↔
       n ∈ (repairPass now raw).seen)) := by
  intro now now2 raw hnow hcond
  have hfacts := repairPass_facts now raw
  have hcanon : repairItems ((repairPass now raw).items.map toRawItem) [] [] =
      ([] ++ (repairPass now raw).items, [] ++ (repairPass now raw).items.map Item.name) :=
    repairItems_canonical _ [] []
      (fun it hit => ⟨(hfacts.2.2.1 it hit).1, (hfacts.2.2.1 it hit).2.1,
        (hfacts.2.2.1 it hit).2.2, (hcond it hit).1, (hcond it hit).2⟩)
      hfacts.1 (fun it _ => List.not_mem_nil _)
  have hitems : (repairPass now2 (toRaw (repairPass now raw))).items =
      (repairPass now raw).items := by
    show sortItems (repairItems ((repairPass now raw).items.map toRawItem) [] []).1 = _
    rw [hcanon]
    dsimp only
    rw [List.nil_append]
    exact sortItems_of_sorted hfacts.2.2.2
  have hseen : ∀ n, n ∈ (repairPass now2 (toRaw (repairPass now raw))).seen ↔
      n ∈ (repairPass now raw).seen := by
    intro n
    have h2 : (repairPass now2 (toRaw (repairPass now raw))).seen =
        (repairPass now raw).items.map Item.name := by
      show (repairItems ((repairPass now raw).items.map toRawItem) [] []).2 = _
      rw [hcanon]
      dsimp only
      rw [List.nil_append]
    rw [h2, hfacts.2.1 n]
  refine ⟨hitems, ?_, rfl, rfl, ?_, ?_, hseen⟩
  · show jsOrInt (some (repairPass now raw).cursor) 1 = (repairPass now raw).cursor
    exact jsOrInt_some_of_ne 1 (jsOrInt_ne_zero raw.cursor one_ne_zero)
  · show jsOrInt (some (repairPass now raw).lastUpdated) now2 = (repairPass now raw).lastUpdated
    exact jsOrInt_some_of_ne now2 (jsOrInt_ne_zero raw.lastUpdated hnow)
  · show jsOrInt (some (repairPass now raw).cronTicks) 0 = (repairPass now raw).cronTicks
    exact jsOrInt_some_zero _

/-- Witness for C2 (amended) at a concrete snapshot. -/
theorem claim2_witness :
    ((5 : Int) ≠ 0) ∧
    (∀ it ∈ (repairPass 5 rawDup).items, '+' ∉ it.name ∧ endsInWord it.name = true) ∧
    (repairPass 9 (toRaw (repairPass 5 rawDup))).items = (repairPass 5 rawDup).items :=
  ⟨by decide, by decide,
   (claim2_repair_idempotent 5 9 rawDup (by decide) (by decide)).1⟩

end ImageApi
